import Mathlib

/-!
# MazeGenerator: a shallow embedding of `main.cpp`

The C++ program carves a maze into `int maze[ROW_NUM][COL_NUM]` by a recursive
walk (`createMaze`) that either knocks down a wall (`makeNewPath`) or retreats
along the wall it came through (`backtrack`), and then opens an entrance and
an exit on opposite sides of the border (`createOpenings`).

Modelling choices.

* The array is a function `row → col → value` on `Int` indices.  An index
  outside `[0, ROW_NUM) × [0, COL_NUM)` stands for a read outside the array;
  nothing is assumed about what such a read yields.
* `int` values are `Int`; the counters of a run stay below 5, so no overflow
  is involved. For `makeNewPath` on an arbitrary array, where an entry may hold
  `INT_MAX` and a wall slot may lie outside the grid, `Machine.makeNewPath` is
  the same function on a flat block of 32-bit `int`s; the two agree where the
  wall slot lies inside the grid and holds less than `INT_MAX`.
* `rand()` is a stream `rnd : Nat → Nat` of non-negative draws together with
  the number of draws made so far.  On a non-negative dividend the C `%`
  agrees with `%` on `Int` and on `Nat`.
* `ROW_NUM` and `COL_NUM` are parameters; the program fixes them to 17 and 25.
* The recursion of `createMaze` and the rejection loops take a step budget;
  running out of it is the fault `Fault.fuel`.
* The messages written to `cout` by the "shouldn't be reached" branches are
  counted in `Carver.errs`.
-/

namespace MazeGenerator

/-! ## The program -/

/-- The maze array, read as `m row col`. -/
abbrev Grid := Int → Int → Int

/-- The statement `m[row][col]++`. -/
def Grid.incr (m : Grid) (row col : Int) : Grid :=
  fun r c => if r = row ∧ c = col then m r c + 1 else m r c

/-- The array after the initialisation loop of `main`. -/
def zeroGrid : Grid := fun _ _ => 0

/-- Ways in which a run of the model stops without a result. -/
inductive Fault where
  | fuel
  | divByZero
  | outOfRange
  deriving DecidableEq, Repr

/-- The state the carving functions work on: the array, the current position
(`currCol` and `currRow` are passed by reference to `makeNewPath` and
`backtrack`), the number of calls of `rand()` made so far and the number of
"shouldn't be reached" messages printed so far. -/
structure Carver where
  m : Grid
  currCol : Int
  currRow : Int
  draws : Nat
  errs : Nat

/-- The function `validNewPaths` of `main.cpp`: the directions (0 east, 1 north,
2 west, 3 south) in which a new path can be made. Both array reads of a test
come before its bound check, as in the source. -/
def validNewPaths (ROW_NUM COL_NUM : Int) (m : Grid) (currCol currRow : Int) : List Int :=
  let paths : List Int := []
  let paths :=
    if m currRow (currCol + 1) = 0 ∧ m currRow (currCol + 2) = 0 ∧ currCol < COL_NUM - 3
    then paths ++ [0] else paths
  let paths :=
    if m (currRow - 1) currCol = 0 ∧ m (currRow - 2) currCol = 0 ∧ currRow ≥ 3
    then paths ++ [1] else paths
  let paths :=
    if m currRow (currCol - 1) = 0 ∧ m currRow (currCol - 2) = 0 ∧ currCol ≥ 3
    then paths ++ [2] else paths
  let paths :=
    if m (currRow + 1) currCol = 0 ∧ m (currRow + 2) currCol = 0 ∧ currRow < ROW_NUM - 3
    then paths ++ [3] else paths
  paths

/-- The function `makeNewPath` of `main.cpp`. `rand() % paths.size()` divides by
zero on an empty vector and `paths.at` throws past the end. -/
def makeNewPath (rnd : Nat → Nat) (s : Carver) (paths : List Int) : Except Fault Carver :=
  if paths.length = 0 then Except.error Fault.divByZero
  else
    let randPathIndex := rnd s.draws % paths.length
    match paths[randPathIndex]? with
    | none => Except.error Fault.outOfRange
    | some direction =>
      let s := { s with draws := s.draws + 1 }
      if direction = 0 then
        Except.ok { s with m := s.m.incr s.currRow (s.currCol + 1), currCol := s.currCol + 2 }
      else if direction = 1 then
        Except.ok { s with m := s.m.incr (s.currRow - 1) s.currCol, currRow := s.currRow - 2 }
      else if direction = 2 then
        Except.ok { s with m := s.m.incr s.currRow (s.currCol - 1), currCol := s.currCol - 2 }
      else if direction = 3 then
        Except.ok { s with m := s.m.incr (s.currRow + 1) s.currCol, currRow := s.currRow + 2 }
      else
        Except.ok { s with errs := s.errs + 1 }

/-- The function `findBacktrackPath` of `main.cpp`: the loop runs over
`i = 1, 2, 3` and carries `(minVal, minDirectionIndex)`, starting from `(1, 0)`. -/
def findBacktrackPath (m : Grid) (currCol currRow : Int) : Int :=
  let testPaths : Nat → Int := fun i =>
    if i = 0 then m currRow (currCol + 1)
    else if i = 1 then m (currRow - 1) currCol
    else if i = 2 then m currRow (currCol - 1)
    else m (currRow + 1) currCol
  let body : Int × Int → Nat → Int × Int := fun acc i =>
    if testPaths i ≠ 0 ∧ testPaths i ≤ acc.1 then (testPaths i, (i : Int)) else acc
  ([1, 2, 3].foldl body (1, 0)).2

/-- The function `backtrack` of `main.cpp`. -/
def backtrack (s : Carver) : Carver :=
  let direction := findBacktrackPath s.m s.currCol s.currRow
  if direction = 0 then
    { s with m := s.m.incr s.currRow (s.currCol + 1), currCol := s.currCol + 2 }
  else if direction = 1 then
    { s with m := s.m.incr (s.currRow - 1) s.currCol, currRow := s.currRow - 2 }
  else if direction = 2 then
    { s with m := s.m.incr s.currRow (s.currCol - 1), currCol := s.currCol - 2 }
  else if direction = 3 then
    { s with m := s.m.incr (s.currRow + 1) s.currCol, currRow := s.currRow + 2 }
  else
    { s with errs := s.errs + 1 }

/-- The function `createMaze` of `main.cpp`. Every call, the first one included,
takes one unit of `fuel`; the result is the state when the base case returns. -/
def createMaze (ROW_NUM COL_NUM : Int) (rnd : Nat → Nat) (startCol startRow : Int) :
    Nat → Carver → Except Fault Carver
  | 0, _ => Except.error Fault.fuel
  | fuel + 1, s =>
    let s := { s with m := s.m.incr s.currRow s.currCol }
    if s.m startRow startCol > 1 then Except.ok s
    else
      let validPaths := validNewPaths ROW_NUM COL_NUM s.m s.currCol s.currRow
      if validPaths ≠ [] then
        match makeNewPath rnd s validPaths with
        | Except.error e => Except.error e
        | Except.ok s => createMaze ROW_NUM COL_NUM rnd startCol startRow fuel s
      else if validPaths = [] then
        createMaze ROW_NUM COL_NUM rnd startCol startRow fuel (backtrack s)
      else
        Except.ok { s with errs := s.errs + 1 }

/-- One rejection loop of `createOpenings`:
`randIndex = rand() % n + 1; while (line[randIndex] == 0) randIndex = rand() % n + 1;`
with at most `fuel` draws. Returns the index and the new number of draws. -/
def pickOpening (rnd : Nat → Nat) (n : Int) (line : Int → Int) :
    Nat → Nat → Except Fault (Int × Nat)
  | 0, _ => Except.error Fault.fuel
  | fuel + 1, draws =>
    if n = 0 then Except.error Fault.divByZero
    else
      let randIndex := (rnd draws : Int) % n + 1
      if line randIndex = 0 then pickOpening rnd n line fuel (draws + 1)
      else Except.ok (randIndex, draws + 1)

/-- The function `createOpenings` of `main.cpp`; each of its rejection loops may
make up to `fuel` draws. Returns the array and the new number of draws. -/
def createOpenings (ROW_NUM COL_NUM : Int) (rnd : Nat → Nat) (fuel : Nat) (m : Grid)
    (draws : Nat) : Except Fault (Grid × Nat) :=
  let openingDirection := rnd draws % 2
  let draws := draws + 1
  if openingDirection = 0 then
    match pickOpening rnd (ROW_NUM - 2) (fun i => m i (COL_NUM - 2)) fuel draws with
    | Except.error e => Except.error e
    | Except.ok (randIndex, draws) =>
      let m := m.incr randIndex (COL_NUM - 1)
      match pickOpening rnd (ROW_NUM - 2) (fun i => m i 1) fuel draws with
      | Except.error e => Except.error e
      | Except.ok (randIndex, draws) => Except.ok (m.incr randIndex 0, draws)
  else
    match pickOpening rnd (COL_NUM - 2) (fun i => m 1 i) fuel draws with
    | Except.error e => Except.error e
    | Except.ok (randIndex, draws) =>
      let m := m.incr 0 randIndex
      match pickOpening rnd (COL_NUM - 2) (fun i => m (ROW_NUM - 2) i) fuel draws with
      | Except.error e => Except.error e
      | Except.ok (randIndex, draws) => Except.ok (m.incr (ROW_NUM - 1) randIndex, draws)

/-- One rejection loop of `main` for a start coordinate:
`x = rand() % n + 1; while (x % 2 != 1) x = rand() % n + 1;`
with at most `fuel` draws. Returns the coordinate and the new number of draws. -/
def pickStart (rnd : Nat → Nat) (n : Int) : Nat → Nat → Except Fault (Int × Nat)
  | 0, _ => Except.error Fault.fuel
  | fuel + 1, draws =>
    if n = 0 then Except.error Fault.divByZero
    else
      let x := (rnd draws : Int) % n + 1
      if x % 2 ≠ 1 then pickStart rnd n fuel (draws + 1)
      else Except.ok (x, draws + 1)

/-- The function `main` of `main.cpp` up to the call of `printMaze`: the array
handed to `printMaze` and the number of draws made. `fuel` bounds the draws of
each rejection loop and the calls of `createMaze`. -/
def main (ROW_NUM COL_NUM : Int) (rnd : Nat → Nat) (fuel : Nat) : Except Fault (Grid × Nat) :=
  match pickStart rnd (COL_NUM - 2) fuel 0 with
  | Except.error e => Except.error e
  | Except.ok (startCol, draws) =>
    match pickStart rnd (ROW_NUM - 2) fuel draws with
    | Except.error e => Except.error e
    | Except.ok (startRow, draws) =>
      match createMaze ROW_NUM COL_NUM rnd startCol startRow fuel
          { m := zeroGrid, currCol := startCol, currRow := startRow, draws := draws, errs := 0 } with
      | Except.error e => Except.error e
      | Except.ok s => createOpenings ROW_NUM COL_NUM rnd fuel s.m s.draws

/-- The entry of the array at a `(row, col)` pair. -/
def Grid.get (m : Grid) (p : Int × Int) : Int := m p.1 p.2

/-- `m[row][col]++` at a `(row, col)` pair. -/
def Grid.bump (m : Grid) (p : Int × Int) : Grid := m.incr p.1 p.2

/-- The four direction codes of the program. -/
def IsDir (d : Int) : Prop := d = 0 ∨ d = 1 ∨ d = 2 ∨ d = 3

instance (d : Int) : Decidable (IsDir d) := by unfold IsDir; infer_instance

/-- Row offset of one step in a direction (1 is north, 3 is south). -/
def dRow (d : Int) : Int := if d = 1 then -1 else if d = 3 then 1 else 0

/-- Column offset of one step in a direction (0 is east, 2 is west). -/
def dCol (d : Int) : Int := if d = 0 then 1 else if d = 2 then -1 else 0

/-- The array slot one step from `x` in direction `d`. -/
def wall (x : Int × Int) (d : Int) : Int × Int := (x.1 + dRow d, x.2 + dCol d)

/-- The array slot two steps from `x` in direction `d`. -/
def nbr (x : Int × Int) (d : Int) : Int × Int := (x.1 + 2 * dRow d, x.2 + 2 * dCol d)

/-- The opposite direction. -/
def opp (d : Int) : Int := (d + 2) % 4

/-- A traversable cell: odd row in `[1, ROW_NUM-2]`, odd column in `[1, COL_NUM-2]`. -/
def IsCell (ROW_NUM COL_NUM : Int) (x : Int × Int) : Prop :=
  x.1 % 2 = 1 ∧ 1 ≤ x.1 ∧ x.1 ≤ ROW_NUM - 2 ∧ x.2 % 2 = 1 ∧ 1 ≤ x.2 ∧ x.2 ≤ COL_NUM - 2

instance (R C : Int) (x : Int × Int) : Decidable (IsCell R C x) := by
  unfold IsCell; infer_instance

/-- An index pair inside the array. -/
def InGrid (ROW_NUM COL_NUM : Int) (x : Int × Int) : Prop :=
  0 ≤ x.1 ∧ x.1 < ROW_NUM ∧ 0 ≤ x.2 ∧ x.2 < COL_NUM

instance (R C : Int) (x : Int × Int) : Decidable (InGrid R C x) := by
  unfold InGrid; infer_instance

/-- The slot two steps away lies in rows `[1, ROW_NUM-2]` and columns `[1, COL_NUM-2]`. -/
def Inside (ROW_NUM COL_NUM : Int) (x : Int × Int) : Prop :=
  1 ≤ x.1 ∧ x.1 ≤ ROW_NUM - 2 ∧ 1 ≤ x.2 ∧ x.2 ≤ COL_NUM - 2

instance (R C : Int) (x : Int × Int) : Decidable (Inside R C x) := by
  unfold Inside; infer_instance

/-- The state after a move in direction `d`: the wall slot is incremented and
the position moves two steps. -/
def moved (s : Carver) (d : Int) : Carver :=
  { s with m := s.m.bump (wall (s.currRow, s.currCol) d),
           currRow := (nbr (s.currRow, s.currCol) d).1,
           currCol := (nbr (s.currRow, s.currCol) d).2 }

/-- A move of two from `a` to the cell `b` through a wall slot that is not 0. -/
def CarvedMove (ROW_NUM COL_NUM : Int) (m : Grid) (a b : Int × Int) : Prop :=
  IsCell ROW_NUM COL_NUM b ∧ ∃ d, IsDir d ∧ b = nbr a d ∧ m.get (wall a d) ≠ 0

/-- `x` can be reached from `start` by carved moves. -/
def Reach (ROW_NUM COL_NUM : Int) (m : Grid) (start x : Int × Int) : Prop :=
  Relation.ReflTransGen (CarvedMove ROW_NUM COL_NUM m) start x

/-- `x` lies directly above `y` in the list (the list is the path walked from
the start to the current position, newest first). -/
def Link : List (Int × Int) → Int × Int → Int × Int → Prop
  | a :: b :: rest, x, y => (a = x ∧ b = y) ∨ Link (b :: rest) x y
  | _, _, _ => False

/-- The number of wall slots around `x` that hold 2, the walls walked through in
both directions. -/
def twoCount (m : Grid) (x : Int × Int) : Int :=
  (if m.get (wall x 0) = 2 then 1 else 0) + (if m.get (wall x 1) = 2 then 1 else 0) +
  (if m.get (wall x 2) = 2 then 1 else 0) + (if m.get (wall x 3) = 2 then 1 else 0)

/-- What the walk has done so far, for the array `m` after the increment at the
current position: `stack` is the path from the current position (its head) back to
`start`, `visited` the cells entered so far, `carved` the wall slots knocked down. -/
structure Inv (R C : Int) (start : Int × Int) (m : Grid)
    (stack visited carved : List (Int × Int)) : Prop where
  stack_last : stack.getLast? = some start
  stack_nodup : stack.Nodup
  stack_sub : ∀ x ∈ stack, x ∈ visited
  link_wall : ∀ a b, Link stack a b → ∃ d, IsDir d ∧ b = nbr a d ∧ m.get (wall a d) = 1
  visited_nodup : visited.Nodup
  visited_cell : ∀ x ∈ visited, IsCell R C x ∧ 1 ≤ m.get x
  finished : ∀ x ∈ visited, x ∉ stack → ∀ d, IsDir d → IsCell R C (nbr x d) → nbr x d ∈ visited
  carved_nodup : carved.Nodup
  carved_wall : ∀ w ∈ carved, ∃ x d, IsDir d ∧ x ∈ visited ∧ nbr x d ∈ visited ∧ w = wall x d ∧
    (m.get w = 1 ∨ m.get w = 2)
  carved_len : carved.length + 1 = visited.length
  support : ∀ p, InGrid R C p → m.get p ≠ 0 → p ∈ visited ∨ p ∈ carved
  one_wall : ∀ x d, IsCell R C x → IsDir d → m.get (wall x d) = 1 →
    Link stack x (nbr x d) ∨ Link stack (nbr x d) x
  reach : ∀ x ∈ visited, Reach R C m start x
  cell_le : ∀ x ∈ visited, m.get x ≤ (if x ∈ stack then 1 else 0) + twoCount m x

/-- The cells of the grid, as a finite set. -/
def cellSet (ROW_NUM COL_NUM : Int) : Finset (Int × Int) :=
  (Finset.Icc 1 (ROW_NUM - 2) ×ˢ Finset.Icc 1 (COL_NUM - 2)).filter
    (fun x => x.1 % 2 = 1 ∧ x.2 % 2 = 1)

/-- What `createMaze` does after the increment and the test of the base case. -/
def createMazeRest (ROW_NUM COL_NUM : Int) (rnd : Nat → Nat) (startCol startRow : Int)
    (fuel : Nat) (s : Carver) : Except Fault Carver :=
  let validPaths := validNewPaths ROW_NUM COL_NUM s.m s.currCol s.currRow
  if validPaths ≠ [] then
    match makeNewPath rnd s validPaths with
    | Except.error e => Except.error e
    | Except.ok s => createMaze ROW_NUM COL_NUM rnd startCol startRow fuel s
  else if validPaths = [] then
    createMaze ROW_NUM COL_NUM rnd startCol startRow fuel (backtrack s)
  else
    Except.ok { s with errs := s.errs + 1 }

/-- The state with which `createMaze` calls itself, computed from the state after
the increment: the result of `makeNewPath` when there is a valid new path, of
`backtrack` otherwise. -/
def nextCall (ROW_NUM COL_NUM : Int) (rnd : Nat → Nat) (s : Carver) : Except Fault Carver :=
  let validPaths := validNewPaths ROW_NUM COL_NUM s.m s.currCol s.currRow
  if validPaths ≠ [] then makeNewPath rnd s validPaths else Except.ok (backtrack s)

/-- The state in which `createMaze` returns: the path is back at the start, the
start holds 2, every cell has been entered, and no message was printed. -/
def Carved (R C : Int) (start : Int × Int) (errs : Nat) (out : Carver) : Prop :=
  ∃ visited carved, Inv R C start out.m [start] visited carved ∧ out.m.get start = 2 ∧
    (∀ y, IsCell R C y → y ∈ visited) ∧ out.errs = errs

/-- The states with which `createMaze` is called in the run that starts with the
call on `s0`: the first call, and after a call that does not reach the base case the
call on the state `nextCall` computes. -/
inductive Called (ROW_NUM COL_NUM : Int) (rnd : Nat → Nat) (startCol startRow : Int)
    (s0 : Carver) : Carver → Prop
  | first : Called ROW_NUM COL_NUM rnd startCol startRow s0 s0
  | next {s s2 : Carver} :
      Called ROW_NUM COL_NUM rnd startCol startRow s0 s →
      ¬ (s.m.bump (s.currRow, s.currCol)).get (startRow, startCol) > 1 →
      nextCall ROW_NUM COL_NUM rnd { s with m := s.m.bump (s.currRow, s.currCol) } =
        Except.ok s2 →
      Called ROW_NUM COL_NUM rnd startCol startRow s0 s2

/-- An index pair on the outer ring of the array. -/
def IsBorder (ROW_NUM COL_NUM : Int) (p : Int × Int) : Prop :=
  InGrid ROW_NUM COL_NUM p ∧
    (p.1 = 0 ∨ p.1 = ROW_NUM - 1 ∨ p.2 = 0 ∨ p.2 = COL_NUM - 1)

instance (R C : Int) (p : Int × Int) : Decidable (IsBorder R C p) := by
  unfold IsBorder; infer_instance

/-- All index pairs of the array, as a finite set. -/
def gridSet (ROW_NUM COL_NUM : Int) : Finset (Int × Int) :=
  Finset.Icc 0 (ROW_NUM - 1) ×ˢ Finset.Icc 0 (COL_NUM - 1)

/-- A wall slot: exactly one of its coordinates is odd. -/
def IsWallSlot (p : Int × Int) : Prop := p.1 % 2 ≠ p.2 % 2

instance (p : Int × Int) : Decidable (IsWallSlot p) := by unfold IsWallSlot; infer_instance

/-- Two index pairs next to each other in a row or in a column. -/
def Adjacent (a b : Int × Int) : Prop :=
  (a.1 = b.1 ∧ (a.2 = b.2 + 1 ∨ b.2 = a.2 + 1)) ∨ (a.2 = b.2 ∧ (a.1 = b.1 + 1 ∨ b.1 = a.1 + 1))

/-- One step between two orthogonally adjacent entries of the array, both not 0. -/
def OpenStep (ROW_NUM COL_NUM : Int) (m : Grid) (a b : Int × Int) : Prop :=
  Adjacent a b ∧ InGrid ROW_NUM COL_NUM a ∧ InGrid ROW_NUM COL_NUM b ∧ m.get a ≠ 0 ∧ m.get b ≠ 0

/-- The entries `a` and `b` are joined by a path of orthogonally adjacent entries
that are not 0. -/
def Joined (ROW_NUM COL_NUM : Int) (m : Grid) (a b : Int × Int) : Prop :=
  Relation.ReflTransGen (OpenStep ROW_NUM COL_NUM m) a b

/-- The border entries `a` and `b` are the only two border entries that are not 0. -/
def TwoOpenings (ROW_NUM COL_NUM : Int) (m : Grid) (a b : Int × Int) : Prop :=
  a ≠ b ∧ IsBorder ROW_NUM COL_NUM a ∧ IsBorder ROW_NUM COL_NUM b ∧ m.get a ≠ 0 ∧ m.get b ≠ 0 ∧
    ∀ p, IsBorder ROW_NUM COL_NUM p → m.get p ≠ 0 → p = a ∨ p = b

/-- Either `a` is in the east column and `b` in the west column, or `a` is in the
north row and `b` in the south row; neither is a corner, and the entry next to
each towards the interior is not 0. -/
def OpposingOpenings (ROW_NUM COL_NUM : Int) (m : Grid) (a b : Int × Int) : Prop :=
  (a.2 = COL_NUM - 1 ∧ b.2 = 0 ∧ 1 ≤ a.1 ∧ a.1 ≤ ROW_NUM - 2 ∧ 1 ≤ b.1 ∧ b.1 ≤ ROW_NUM - 2 ∧
      m.get (a.1, COL_NUM - 2) ≠ 0 ∧ m.get (b.1, 1) ≠ 0) ∨
  (a.1 = 0 ∧ b.1 = ROW_NUM - 1 ∧ 1 ≤ a.2 ∧ a.2 ≤ COL_NUM - 2 ∧ 1 ≤ b.2 ∧ b.2 ≤ COL_NUM - 2 ∧
      m.get (1, a.2) ≠ 0 ∧ m.get (ROW_NUM - 2, b.2) ≠ 0)

/-- An array with an open row 1 and a closed border, for the witness of C4. -/
def rowOneOpen : Grid := fun r c => if r = 1 ∧ 1 ≤ c ∧ c ≤ 23 then 1 else 0

/-- The value of the wall slot next to position `(currRow, currCol)` in direction `d`. -/
def slotValue (m : Grid) (currCol currRow : Int) (d : Int) : Int :=
  m.get (wall (currRow, currCol) d)

/-- The direction `d` holds the smallest strictly positive value among the four
neighbouring wall slots and is the first such direction in the order east, north,
west, south. -/
def LeastPositiveFirst (m : Grid) (currCol currRow : Int) (d : Int) : Prop :=
  IsDir d ∧ 0 < slotValue m currCol currRow d ∧
    (∀ e, IsDir e → 0 < slotValue m currCol currRow e →
      slotValue m currCol currRow d ≤ slotValue m currCol currRow e) ∧
    (∀ e, IsDir e → slotValue m currCol currRow e = slotValue m currCol currRow d → d ≤ e)

/-- The direction `d` holds the smallest strictly positive value among the four
neighbouring wall slots and is the last such direction in the order east, north,
west, south. -/
def LeastPositiveLast (m : Grid) (currCol currRow : Int) (d : Int) : Prop :=
  IsDir d ∧ 0 < slotValue m currCol currRow d ∧
    (∀ e, IsDir e → 0 < slotValue m currCol currRow e →
      slotValue m currCol currRow d ≤ slotValue m currCol currRow e) ∧
    (∀ e, IsDir e → slotValue m currCol currRow e = slotValue m currCol currRow d → e ≤ d)

/-- Around `(3, 3)`: the east slot and the north slot both hold 1. -/
def tieGrid : Grid := fun r c => if (r = 3 ∧ c = 4) ∨ (r = 2 ∧ c = 3) then 1 else 0

/-- Around `(3, 3)`: only the north slot is not 0, and it holds 2. -/
def northTwoGrid : Grid := fun r c => if r = 2 ∧ c = 3 then 2 else 0

/-- The index `rand() % n + 1` that a rejection loop of `createOpenings` tries on the
draw `v`. -/
def drawIndex (v : Nat) (n : Int) : Int := (v : Int) % n + 1

/-- The stream of draws `0, 1, 1, 1, ...`, for the witness of C13. -/
def trapDraws : Nat → Nat := fun n => if n = 0 then 0 else 1

/-- The first call of `createMaze` from the start `(3, 1)` on the all-zero array. -/
def trapStart : Carver :=
  { m := zeroGrid, currCol := 1, currRow := 3, draws := 0, errs := 0 }

/-- The all-zero array with 7 at every index outside the 17 by 25 array, for the
witness of C19. -/
def sevenOutside : Grid := fun r c => if 0 ≤ r ∧ r < 17 ∧ 0 ≤ c ∧ c < 25 then 0 else 7

/-- The memory that holds `int maze[ROW_NUM][COL_NUM]`, in units of one `int`:
address 0 is `maze[0][0]`, and the rows follow one another without a gap. -/
abbrev Memory := Int → Int

/-- The value a 32-bit `int` holds after an arithmetic result `v`: the two's
complement wrap into `[-2147483648, 2147483647]`. -/
def wrapInt32 (v : Int) : Int := (v + 2147483648) % 4294967296 - 2147483648

/-- The address of `m[row][col]` in the flat block: `row * COL_NUM + col`. -/
def Machine.address (COL_NUM row col : Int) : Int := row * COL_NUM + col

/-- The entry `m[row][col]` of the block. -/
def Machine.read (COL_NUM : Int) (mem : Memory) (row col : Int) : Int :=
  mem (Machine.address COL_NUM row col)

/-- The statement `m[row][col]++` on the machine: the `int` at the address of
`m[row][col]` becomes its value plus 1, wrapped to 32 bits. -/
def Machine.incr (COL_NUM : Int) (mem : Memory) (row col : Int) : Memory :=
  fun a => if a = Machine.address COL_NUM row col then wrapInt32 (mem a + 1) else mem a

/-- The state of the carving functions on the machine: as `Carver`, with the flat
block in place of the array read by index pairs. -/
structure Machine.Carver where
  mem : Memory
  currCol : Int
  currRow : Int
  draws : Nat
  errs : Nat

/-- The function `makeNewPath` of `main.cpp` on the machine: every `int` result is
wrapped to 32 bits and `m[row][col]` is the `int` at `row * COL_NUM + col`. -/
def Machine.makeNewPath (COL_NUM : Int) (rnd : Nat → Nat) (s : Machine.Carver)
    (paths : List Int) : Except Fault Machine.Carver :=
  if paths.length = 0 then Except.error Fault.divByZero
  else
    let randPathIndex := rnd s.draws % paths.length
    match paths[randPathIndex]? with
    | none => Except.error Fault.outOfRange
    | some direction =>
      let s := { s with draws := s.draws + 1 }
      if direction = 0 then
        Except.ok { s with mem := Machine.incr COL_NUM s.mem s.currRow (wrapInt32 (s.currCol + 1)),
                           currCol := wrapInt32 (s.currCol + 2) }
      else if direction = 1 then
        Except.ok { s with mem := Machine.incr COL_NUM s.mem (wrapInt32 (s.currRow - 1)) s.currCol,
                           currRow := wrapInt32 (s.currRow - 2) }
      else if direction = 2 then
        Except.ok { s with mem := Machine.incr COL_NUM s.mem s.currRow (wrapInt32 (s.currCol - 1)),
                           currCol := wrapInt32 (s.currCol - 2) }
      else if direction = 3 then
        Except.ok { s with mem := Machine.incr COL_NUM s.mem (wrapInt32 (s.currRow + 1)) s.currCol,
                           currRow := wrapInt32 (s.currRow + 2) }
      else
        Except.ok { s with errs := s.errs + 1 }

/-- The block read by index pairs, as the array of the model. -/
def Machine.view (COL_NUM : Int) (mem : Memory) : Grid :=
  fun row col => Machine.read COL_NUM mem row col

/-- The block that is 0 except for `INT_MAX` at `m[5][8]`, with 25 columns. -/
def fullSlotMemory : Memory := fun a => if a = 5 * 25 + 8 then 2147483647 else 0

/-- The block that is 0 everywhere. -/
def zeroMemory : Memory := fun _ => 0

/-! ## Geometry of the grid -/

theorem get_bump (m : Grid) (p q : Int × Int) :
    (m.bump p).get q = if q = p then m.get q + 1 else m.get q := by
  unfold Grid.get Grid.bump Grid.incr
  by_cases h : q = p
  · subst h; simp
  · have : ¬ (q.1 = p.1 ∧ q.2 = p.2) := fun hh => h (Prod.ext hh.1 hh.2)
    simp [h, this]

theorem get_bump_self (m : Grid) (p : Int × Int) : (m.bump p).get p = m.get p + 1 := by
  simp [get_bump]

theorem get_bump_ne (m : Grid) {p q : Int × Int} (h : q ≠ p) : (m.bump p).get q = m.get q := by
  simp [get_bump, h]

theorem isDir_opp {d : Int} (h : IsDir d) : IsDir (opp d) := by
  rcases h with h | h | h | h <;> subst h <;> decide

theorem nbr_opp {d : Int} (h : IsDir d) (x : Int × Int) : nbr (nbr x d) (opp d) = x := by
  rcases h with h | h | h | h <;> subst h <;> simp [nbr, opp, dRow, dCol]

theorem wall_opp {d : Int} (h : IsDir d) (x : Int × Int) : wall (nbr x d) (opp d) = wall x d := by
  rcases h with h | h | h | h <;> subst h <;> simp [nbr, wall, opp, dRow, dCol] <;> omega

theorem nbr_ne_self {d : Int} (h : IsDir d) (x : Int × Int) : nbr x d ≠ x := by
  rcases h with h | h | h | h <;> subst h <;> simp [nbr, dRow, dCol, Prod.ext_iff]

theorem nbr_inj {d e : Int} (hd : IsDir d) (he : IsDir e) {x : Int × Int}
    (h : nbr x d = nbr x e) : d = e := by
  rcases hd with hd | hd | hd | hd <;> rcases he with he | he | he | he <;> subst hd <;> subst he <;>
    simp [nbr, dRow, dCol, Prod.ext_iff] at h ⊢

/-- A wall slot next to a cell is never a cell. -/
theorem wall_not_cell {R C : Int} {d : Int} (hd : IsDir d) {x : Int × Int} (hx : IsCell R C x) :
    ¬ IsCell R C (wall x d) := by
  unfold IsCell at *
  rcases hd with hd | hd | hd | hd <;> subst hd <;> simp [wall, dRow, dCol] <;> omega

/-- A wall slot next to a cell lies inside the array. -/
theorem wall_inGrid {R C : Int} {d : Int} (hd : IsDir d) {x : Int × Int} (hx : IsCell R C x) :
    InGrid R C (wall x d) := by
  unfold IsCell at hx; unfold InGrid
  rcases hd with hd | hd | hd | hd <;> subst hd <;> simp [wall, dRow, dCol] <;> omega

theorem cell_inGrid {R C : Int} {x : Int × Int} (hx : IsCell R C x) : InGrid R C x := by
  unfold IsCell at hx; unfold InGrid; omega

/-- A wall slot determines the two cells it separates. -/
theorem wall_eq_wall {R C : Int} {d e : Int} (hd : IsDir d) (he : IsDir e) {x y : Int × Int}
    (hx : IsCell R C x) (hy : IsCell R C y) (h : wall x d = wall y e) :
    (y = x ∧ e = d) ∨ (y = nbr x d ∧ e = opp d) := by
  unfold IsCell at *
  obtain ⟨x1, x2⟩ := x
  obtain ⟨y1, y2⟩ := y
  rcases hd with hd | hd | hd | hd <;> rcases he with he | he | he | he <;> subst hd <;> subst he <;>
    simp [wall, nbr, opp, dRow, dCol, Prod.ext_iff] at h hx hy ⊢ <;> omega

/-! ## The operations in terms of `wall` and `nbr` -/

theorem validNewPaths_eq_filter (R C : Int) (m : Grid) (c r : Int)
    (hr : 1 ≤ r ∧ r ≤ R - 2) (hc : 1 ≤ c ∧ c ≤ C - 2) :
    validNewPaths R C m c r =
      [0, 1, 2, 3].filter (fun d => decide (m.get (wall (r, c) d) = 0 ∧
        m.get (nbr (r, c) d) = 0 ∧ Inside R C (nbr (r, c) d))) := by
  have e0 : (m r (c + 1) = 0 ∧ m r (c + 2) = 0 ∧ c < C - 3) ↔
      (m.get (wall (r, c) 0) = 0 ∧ m.get (nbr (r, c) 0) = 0 ∧ Inside R C (nbr (r, c) 0)) := by
    simp [Grid.get, wall, nbr, dRow, dCol, Inside]; intro _ _; omega
  have e1 : (m (r - 1) c = 0 ∧ m (r - 2) c = 0 ∧ r ≥ 3) ↔
      (m.get (wall (r, c) 1) = 0 ∧ m.get (nbr (r, c) 1) = 0 ∧ Inside R C (nbr (r, c) 1)) := by
    simp [Grid.get, wall, nbr, dRow, dCol, Inside, sub_eq_add_neg]; intro _ _; omega
  have e2 : (m r (c - 1) = 0 ∧ m r (c - 2) = 0 ∧ c ≥ 3) ↔
      (m.get (wall (r, c) 2) = 0 ∧ m.get (nbr (r, c) 2) = 0 ∧ Inside R C (nbr (r, c) 2)) := by
    simp [Grid.get, wall, nbr, dRow, dCol, Inside, sub_eq_add_neg]; intro _ _; omega
  have e3 : (m (r + 1) c = 0 ∧ m (r + 2) c = 0 ∧ r < R - 3) ↔
      (m.get (wall (r, c) 3) = 0 ∧ m.get (nbr (r, c) 3) = 0 ∧ Inside R C (nbr (r, c) 3)) := by
    simp [Grid.get, wall, nbr, dRow, dCol, Inside]; intro _ _; omega
  unfold validNewPaths
  simp only [e0, e1, e2, e3]
  simp only [List.filter]
  by_cases h0 : (m.get (wall (r, c) 0) = 0 ∧ m.get (nbr (r, c) 0) = 0 ∧ Inside R C (nbr (r, c) 0)) <;>
  by_cases h1 : (m.get (wall (r, c) 1) = 0 ∧ m.get (nbr (r, c) 1) = 0 ∧ Inside R C (nbr (r, c) 1)) <;>
  by_cases h2 : (m.get (wall (r, c) 2) = 0 ∧ m.get (nbr (r, c) 2) = 0 ∧ Inside R C (nbr (r, c) 2)) <;>
  by_cases h3 : (m.get (wall (r, c) 3) = 0 ∧ m.get (nbr (r, c) 3) = 0 ∧ Inside R C (nbr (r, c) 3)) <;>
  simp [h0, h1, h2, h3]

theorem inside_nbr_iff {R C : Int} {x : Int × Int} (hx : IsCell R C x) {d : Int} (hd : IsDir d) :
    Inside R C (nbr x d) ↔ IsCell R C (nbr x d) := by
  unfold IsCell Inside at *
  rcases hd with hd | hd | hd | hd <;> subst hd <;> simp [nbr, dRow, dCol] <;> omega

theorem mem_validNewPaths {R C : Int} {m : Grid} {x : Int × Int} (hx : IsCell R C x) (d : Int) :
    d ∈ validNewPaths R C m x.2 x.1 ↔
      IsDir d ∧ m.get (wall x d) = 0 ∧ m.get (nbr x d) = 0 ∧ IsCell R C (nbr x d) := by
  have hx0 := hx
  unfold IsCell at hx
  rw [validNewPaths_eq_filter R C m x.2 x.1 ⟨hx.2.1, hx.2.2.1⟩ ⟨hx.2.2.2.2.1, hx.2.2.2.2.2⟩]
  simp only [List.mem_filter, decide_eq_true_eq]
  constructor
  · rintro ⟨hd, h1, h2, h3⟩
    have hd : IsDir d := by simpa [IsDir] using hd
    exact ⟨hd, h1, h2, (inside_nbr_iff hx0 hd).1 h3⟩
  · rintro ⟨hd, h1, h2, h3⟩
    refine ⟨by simpa [IsDir] using hd, h1, h2, (inside_nbr_iff hx0 hd).2 h3⟩

theorem makeNewPath_eq (rnd : Nat → Nat) (s : Carver) (paths : List Int)
    (hne : paths ≠ []) (hdir : ∀ d ∈ paths, IsDir d) :
    ∃ d ∈ paths, paths[rnd s.draws % paths.length]? = some d ∧
      makeNewPath rnd s paths = Except.ok (moved { s with draws := s.draws + 1 } d) := by
  have hlen : 0 < paths.length := List.length_pos.2 hne
  have hlt : rnd s.draws % paths.length < paths.length := Nat.mod_lt _ hlen
  refine ⟨paths[rnd s.draws % paths.length], List.getElem_mem _, List.getElem?_eq_getElem hlt, ?_⟩
  have hd := hdir _ (List.getElem_mem hlt)
  unfold makeNewPath
  rw [if_neg (by omega)]
  simp only [List.getElem?_eq_getElem hlt]
  rcases hd with hd | hd | hd | hd <;> rw [hd] <;>
    simp [moved, Grid.bump, wall, nbr, dRow, dCol, sub_eq_add_neg]

/-- On non-negative neighbouring slots the loop of `findBacktrackPath` keeps the
last of north, west, south whose slot holds exactly 1, and east otherwise. -/
theorem findBacktrackPath_nonneg (m : Grid) (c r : Int)
    (hN : 0 ≤ m (r - 1) c) (hW : 0 ≤ m r (c - 1)) (hS : 0 ≤ m (r + 1) c) :
    findBacktrackPath m c r =
      if m (r + 1) c = 1 then 3 else if m r (c - 1) = 1 then 2
      else if m (r - 1) c = 1 then 1 else 0 := by
  have key : ∀ (v : Int) (i : Int) (acc : Int × Int), 0 ≤ v → acc.1 = 1 →
      (if v ≠ 0 ∧ v ≤ acc.1 then (v, i) else acc) = (1, if v = 1 then i else acc.2) := by
    intro v i acc hv hacc
    by_cases h : v = 1
    · subst h; simp [hacc]
    · have : ¬ (v ≠ 0 ∧ v ≤ acc.1) := by rw [hacc]; omega
      rw [if_neg this, if_neg h]
      exact Prod.ext hacc rfl
  unfold findBacktrackPath
  simp only [List.foldl]
  norm_num
  rw [key _ 1 (1, 0) hN rfl, key _ 2 _ hW rfl, key _ 3 _ hS rfl]

/-- Whatever the array holds, `findBacktrackPath` returns one of 0, 1, 2, 3. -/
theorem findBacktrackPath_isDir (m : Grid) (c r : Int) : IsDir (findBacktrackPath m c r) := by
  unfold findBacktrackPath IsDir
  simp only [List.foldl]
  split_ifs <;> simp

theorem findBacktrackPath_eq {m : Grid} {x : Int × Int} {d0 : Int} (hd0 : IsDir d0)
    (h1 : m.get (wall x d0) = 1)
    (huniq : ∀ d, IsDir d → m.get (wall x d) = 1 → d = d0)
    (hnn : ∀ d, IsDir d → 0 ≤ m.get (wall x d)) :
    findBacktrackPath m x.2 x.1 = d0 := by
  have a1 := hnn 1 (by decide)
  have a2 := hnn 2 (by decide)
  have a3 := hnn 3 (by decide)
  have u1 := huniq 1 (by decide)
  have u2 := huniq 2 (by decide)
  have u3 := huniq 3 (by decide)
  simp only [Grid.get, wall, dRow, dCol] at a1 a2 a3 u1 u2 u3 h1
  norm_num at a1 a2 a3 u1 u2 u3
  rw [findBacktrackPath_nonneg m x.2 x.1 (by simpa [sub_eq_add_neg] using a1)
    (by simpa [sub_eq_add_neg] using a2) a3]
  simp only [sub_eq_add_neg]
  rcases hd0 with h | h | h | h <;> subst h <;> norm_num at h1 u1 u2 u3 ⊢ <;>
    by_cases hn : m (x.1 + -1) x.2 = 1 <;> by_cases hw : m x.1 (x.2 + -1) = 1 <;>
    by_cases hs : m (x.1 + 1) x.2 = 1 <;> simp_all

theorem backtrack_eq {s : Carver} {d : Int} (hd : IsDir d)
    (h : findBacktrackPath s.m s.currCol s.currRow = d) : backtrack s = moved s d := by
  unfold backtrack
  simp only [h]
  rcases hd with hd | hd | hd | hd <;> subst hd <;>
    simp [moved, Grid.bump, wall, nbr, dRow, dCol, sub_eq_add_neg]

/-! ## The bookkeeping of the walk -/

theorem link_cons_cons (a b : Int × Int) (rest : List (Int × Int)) (x y : Int × Int) :
    Link (a :: b :: rest) x y ↔ (a = x ∧ b = y) ∨ Link (b :: rest) x y := by
  simp [Link]

theorem link_mem : ∀ {l : List (Int × Int)} {x y : Int × Int}, Link l x y → x ∈ l ∧ y ∈ l
  | [], _, _, h => by simp [Link] at h
  | [_], _, _, h => by simp [Link] at h
  | a :: b :: rest, x, y, h => by
    rcases (link_cons_cons a b rest x y).1 h with ⟨h1, h2⟩ | h'
    · subst h1; subst h2; simp
    · have := link_mem h'
      exact ⟨List.mem_cons_of_mem _ this.1, List.mem_cons_of_mem _ this.2⟩

theorem link_cons {l : List (Int × Int)} {x y : Int × Int} (a : Int × Int) (h : Link l x y) :
    Link (a :: l) x y := by
  cases l with
  | nil => simp [Link] at h
  | cons b rest => exact (link_cons_cons a b rest x y).2 (Or.inr h)

theorem twoCount_nonneg (m : Grid) (x : Int × Int) : 0 ≤ twoCount m x := by
  unfold twoCount; split_ifs <;> omega

theorem twoCount_le_four (m : Grid) (x : Int × Int) : twoCount m x ≤ 4 := by
  unfold twoCount; split_ifs <;> omega

theorem twoCount_le_three {m : Grid} {x : Int × Int} {d : Int} (hd : IsDir d)
    (h : m.get (wall x d) ≠ 2) : twoCount m x ≤ 3 := by
  unfold twoCount
  rcases hd with hd | hd | hd | hd <;> subst hd <;> rw [if_neg h] <;> split_ifs <;> omega

theorem ind_two_mono {m m2 : Grid} {w : Int × Int} (h : m.get w = 2 → m2.get w = 2) :
    (if m.get w = 2 then (1 : Int) else 0) ≤ (if m2.get w = 2 then 1 else 0) := by
  by_cases hm : m.get w = 2
  · rw [if_pos hm, if_pos (h hm)]
  · rw [if_neg hm]; split_ifs <;> omega

theorem twoCount_mono {m m2 : Grid} {x : Int × Int}
    (h : ∀ e, IsDir e → m.get (wall x e) = 2 → m2.get (wall x e) = 2) :
    twoCount m x ≤ twoCount m2 x := by
  have h0 := ind_two_mono (h 0 (by decide))
  have h1 := ind_two_mono (h 1 (by decide))
  have h2 := ind_two_mono (h 2 (by decide))
  have h3 := ind_two_mono (h 3 (by decide))
  unfold twoCount
  linarith

theorem twoCount_gain {m m2 : Grid} {x : Int × Int} {d : Int} (hd : IsDir d)
    (hold : m.get (wall x d) ≠ 2) (hnew : m2.get (wall x d) = 2)
    (h : ∀ e, IsDir e → m.get (wall x e) = 2 → m2.get (wall x e) = 2) :
    twoCount m x + 1 ≤ twoCount m2 x := by
  have h0 := ind_two_mono (h 0 (by decide))
  have h1 := ind_two_mono (h 1 (by decide))
  have h2 := ind_two_mono (h 2 (by decide))
  have h3 := ind_two_mono (h 3 (by decide))
  have g : (if m.get (wall x d) = 2 then (1 : Int) else 0) + 1 ≤
      (if m2.get (wall x d) = 2 then 1 else 0) := by
    rw [if_neg hold, if_pos hnew]; rfl
  unfold twoCount
  rcases hd with hd | hd | hd | hd <;> subst hd <;> linarith

section InvFacts

variable {R C : Int} {start : Int × Int} {m : Grid} {stack visited carved : List (Int × Int)}

theorem Inv.carved_not_cell (h : Inv R C start m stack visited carved) {w : Int × Int}
    (hw : w ∈ carved) : ¬ IsCell R C w := by
  obtain ⟨x, d, hd, hx, _, rfl, _⟩ := h.carved_wall w hw
  exact wall_not_cell hd (h.visited_cell x hx).1

theorem Inv.cell_visited (h : Inv R C start m stack visited carved) {x : Int × Int}
    (hx : IsCell R C x) (hne : m.get x ≠ 0) : x ∈ visited := by
  rcases h.support x (cell_inGrid hx) hne with h1 | h1
  · exact h1
  · exact absurd hx (h.carved_not_cell h1)

theorem Inv.wall_carved (h : Inv R C start m stack visited carved) {x : Int × Int} {d : Int}
    (hx : IsCell R C x) (hd : IsDir d) (hne : m.get (wall x d) ≠ 0) : wall x d ∈ carved := by
  rcases h.support _ (wall_inGrid hd hx) hne with h1 | h1
  · exact absurd (h.visited_cell _ h1).1 (wall_not_cell hd hx)
  · exact h1

theorem Inv.wall_val (h : Inv R C start m stack visited carved) {x : Int × Int} {d : Int}
    (hx : IsCell R C x) (hd : IsDir d) :
    m.get (wall x d) = 0 ∨ m.get (wall x d) = 1 ∨ m.get (wall x d) = 2 := by
  by_cases hne : m.get (wall x d) = 0
  · exact Or.inl hne
  · obtain ⟨_, _, _, _, _, _, hv⟩ := h.carved_wall _ (h.wall_carved hx hd hne)
    exact Or.inr hv

theorem Inv.wall_nbr_visited (h : Inv R C start m stack visited carved) {x : Int × Int} {d : Int}
    (hx : IsCell R C x) (hd : IsDir d) (hne : m.get (wall x d) ≠ 0) :
    x ∈ visited ∧ nbr x d ∈ visited := by
  obtain ⟨y, e, he, hy, hy2, heq, _⟩ := h.carved_wall _ (h.wall_carved hx hd hne)
  rcases wall_eq_wall he hd (h.visited_cell y hy).1 hx heq.symm with ⟨h1, h2⟩ | ⟨h1, h2⟩
  · subst h1; subst h2; exact ⟨hy, hy2⟩
  · subst h1; subst h2
    rw [nbr_opp he]
    exact ⟨hy2, hy⟩

theorem Inv.start_mem (h : Inv R C start m stack visited carved) : start ∈ stack :=
  List.mem_of_getLast?_eq_some h.stack_last

theorem Inv.start_cell (h : Inv R C start m stack visited carved) : IsCell R C start :=
  (h.visited_cell _ (h.stack_sub _ h.start_mem)).1

end InvFacts

theorem reach_mono {R C : Int} {m m2 : Grid} {start x : Int × Int}
    (hm : ∀ p, m.get p ≠ 0 → m2.get p ≠ 0) (h : Reach R C m start x) : Reach R C m2 start x := by
  unfold Reach at *
  refine Relation.ReflTransGen.mono ?_ h
  rintro a b ⟨hb, d, hd, hbd, hw⟩
  exact ⟨hb, d, hd, hbd, hm _ hw⟩

/-! ## One move of the walk keeps the bookkeeping -/

theorem get_bump_le (m : Grid) (p q : Int × Int) : m.get q ≤ (m.bump p).get q := by
  rw [get_bump]; split <;> omega

/-- Knocking down the wall in a valid direction. -/
theorem Inv.carve {R C : Int} {start cur : Int × Int} {m : Grid}
    {rest visited carved : List (Int × Int)}
    (h : Inv R C start m (cur :: rest) visited carved) {d : Int} (hd : IsDir d)
    (hw : m.get (wall cur d) = 0) (hn : m.get (nbr cur d) = 0) (hc : IsCell R C (nbr cur d)) :
    Inv R C start ((m.bump (wall cur d)).bump (nbr cur d)) (nbr cur d :: cur :: rest)
      (nbr cur d :: visited) (wall cur d :: carved) := by
  have hcurv : cur ∈ visited := h.stack_sub cur (List.mem_cons_self _ _)
  have hcur : IsCell R C cur := (h.visited_cell cur hcurv).1
  have hnv : nbr cur d ∉ visited := fun hx => by
    have := (h.visited_cell _ hx).2; omega
  have hwc : wall cur d ∉ carved := fun hx => by
    obtain ⟨_, _, _, _, _, _, hv⟩ := h.carved_wall _ hx; omega
  have hwn : wall cur d ≠ nbr cur d := fun e => wall_not_cell hd hcur (e ▸ hc)
  -- values of the new array
  have vmono : ∀ p, m.get p ≤ ((m.bump (wall cur d)).bump (nbr cur d)).get p := fun p =>
    le_trans (get_bump_le m _ p) (get_bump_le _ _ p)
  have vw : ((m.bump (wall cur d)).bump (nbr cur d)).get (wall cur d) = 1 := by
    rw [get_bump_ne _ hwn, get_bump_self, hw]; rfl
  have vn : ((m.bump (wall cur d)).bump (nbr cur d)).get (nbr cur d) = 1 := by
    rw [get_bump_self, get_bump_ne _ (Ne.symm hwn), hn]; rfl
  have vo : ∀ p, p ≠ wall cur d → p ≠ nbr cur d →
      ((m.bump (wall cur d)).bump (nbr cur d)).get p = m.get p := fun p h1 h2 => by
    rw [get_bump_ne _ h2, get_bump_ne _ h1]
  have vwall : ∀ y e, IsCell R C y → IsDir e → wall y e ≠ wall cur d →
      ((m.bump (wall cur d)).bump (nbr cur d)).get (wall y e) = m.get (wall y e) :=
    fun y e hy he hne => vo _ hne (fun e2 => wall_not_cell he hy (e2 ▸ hc))
  refine ⟨?_, ?_, ?_, ?_, ?_, ?_, ?_, ?_, ?_, ?_, ?_, ?_, ?_, ?_⟩
  · rw [List.getLast?_cons_cons]; exact h.stack_last
  · exact List.nodup_cons.2 ⟨fun hx => hnv (h.stack_sub _ hx), h.stack_nodup⟩
  · intro x hx
    rcases List.mem_cons.1 hx with rfl | hx
    · exact List.mem_cons_self _ _
    · exact List.mem_cons_of_mem _ (h.stack_sub x hx)
  · intro a b hab
    rcases (link_cons_cons _ _ _ _ _).1 hab with ⟨rfl, rfl⟩ | hab
    · exact ⟨opp d, isDir_opp hd, (nbr_opp hd _).symm, by rw [wall_opp hd]; exact vw⟩
    · obtain ⟨e, he, hb, hv⟩ := h.link_wall a b hab
      have ha : IsCell R C a := (h.visited_cell a (h.stack_sub a (link_mem hab).1)).1
      refine ⟨e, he, hb, ?_⟩
      rw [vwall a e ha he (fun e2 => by rw [e2, hw] at hv; omega)]
      exact hv
  · exact List.nodup_cons.2 ⟨hnv, h.visited_nodup⟩
  · intro x hx
    rcases List.mem_cons.1 hx with rfl | hx
    · exact ⟨hc, by rw [vn]⟩
    · exact ⟨(h.visited_cell x hx).1, le_trans (h.visited_cell x hx).2 (vmono x)⟩
  · intro x hx hns e he hce
    have hx2 : x ∈ visited := by
      rcases List.mem_cons.1 hx with rfl | hx
      · exact absurd (List.mem_cons_self _ _) hns
      · exact hx
    exact List.mem_cons_of_mem _
      (h.finished x hx2 (fun hm => hns (List.mem_cons_of_mem _ hm)) e he hce)
  · exact List.nodup_cons.2 ⟨hwc, h.carved_nodup⟩
  · intro w hwm
    rcases List.mem_cons.1 hwm with rfl | hwm
    · exact ⟨cur, d, hd, List.mem_cons_of_mem _ hcurv, List.mem_cons_self _ _, rfl, Or.inl vw⟩
    · obtain ⟨x, e, he, hx, hx2, rfl, hv⟩ := h.carved_wall w hwm
      refine ⟨x, e, he, List.mem_cons_of_mem _ hx, List.mem_cons_of_mem _ hx2, rfl, ?_⟩
      rw [vwall x e (h.visited_cell x hx).1 he (fun e2 => hwc (e2 ▸ hwm))]
      exact hv
  · simp only [List.length_cons]; have := h.carved_len; omega
  · intro p hp hne
    by_cases h1 : p = nbr cur d
    · exact Or.inl (h1 ▸ List.mem_cons_self _ _)
    · by_cases h2 : p = wall cur d
      · exact Or.inr (h2 ▸ List.mem_cons_self _ _)
      · rw [vo p h2 h1] at hne
        rcases h.support p hp hne with h3 | h3
        · exact Or.inl (List.mem_cons_of_mem _ h3)
        · exact Or.inr (List.mem_cons_of_mem _ h3)
  · intro x e hx he hv
    by_cases h1 : wall x e = wall cur d
    · rcases wall_eq_wall hd he hcur hx h1.symm with ⟨rfl, rfl⟩ | ⟨rfl, rfl⟩
      · exact Or.inr ((link_cons_cons _ _ _ _ _).2 (Or.inl ⟨rfl, rfl⟩))
      · rw [nbr_opp hd]
        exact Or.inl ((link_cons_cons _ _ _ _ _).2 (Or.inl ⟨rfl, rfl⟩))
    · rw [vwall x e hx he h1] at hv
      rcases h.one_wall x e hx he hv with h2 | h2
      · exact Or.inl (link_cons _ h2)
      · exact Or.inr (link_cons _ h2)
  · have hm : ∀ p, m.get p ≠ 0 → ((m.bump (wall cur d)).bump (nbr cur d)).get p ≠ 0 := by
      intro p hp
      by_cases h1 : p = nbr cur d
      · rw [h1, vn]; decide
      · by_cases h2 : p = wall cur d
        · rw [h2, vw]; decide
        · rw [vo p h2 h1]; exact hp
    intro x hx
    rcases List.mem_cons.1 hx with rfl | hx
    · exact Relation.ReflTransGen.tail (reach_mono hm (h.reach cur hcurv))
        ⟨hc, d, hd, rfl, by rw [vw]; decide⟩
    · exact reach_mono hm (h.reach x hx)
  · intro x hx
    rcases List.mem_cons.1 hx with rfl | hx
    · rw [vn, if_pos (List.mem_cons_self _ _)]
      have := twoCount_nonneg ((m.bump (wall cur d)).bump (nbr cur d)) (nbr cur d)
      omega
    · have hxc : IsCell R C x := (h.visited_cell x hx).1
      have hxn : x ≠ nbr cur d := fun e => hnv (e ▸ hx)
      have hxw : x ≠ wall cur d := fun e => wall_not_cell hd hcur (e ▸ hxc)
      have hmono : twoCount m x ≤ twoCount ((m.bump (wall cur d)).bump (nbr cur d)) x := by
        apply twoCount_mono
        intro e he hv
        rw [vwall x e hxc he (fun e2 => by rw [e2, hw] at hv; omega)]
        exact hv
      have hold := h.cell_le x hx
      rw [vo x hxw hxn]
      by_cases hs : x ∈ cur :: rest
      · rw [if_pos hs] at hold
        rw [if_pos (List.mem_cons_of_mem _ hs)]
        omega
      · rw [if_neg hs] at hold
        have hs2 : x ∉ nbr cur d :: cur :: rest := fun hm2 => by
          rcases List.mem_cons.1 hm2 with h1 | h1
          · exact hxn h1
          · exact hs h1
        rw [if_neg hs2]
        omega

/-- At the head of the path the only wall slot holding 1 is the one towards the
cell below it on the path. -/
theorem Inv.head_wall {R C : Int} {start cur p : Int × Int} {m : Grid}
    {rest visited carved : List (Int × Int)}
    (h : Inv R C start m (cur :: p :: rest) visited carved) :
    ∃ d, IsDir d ∧ p = nbr cur d ∧ m.get (wall cur d) = 1 ∧
      ∀ e, IsDir e → m.get (wall cur e) = 1 → e = d := by
  have hcurv : cur ∈ visited := h.stack_sub cur (List.mem_cons_self _ _)
  have hcur : IsCell R C cur := (h.visited_cell cur hcurv).1
  have hnd := List.nodup_cons.1 h.stack_nodup
  obtain ⟨d, hd, hp, hv⟩ := h.link_wall cur p ((link_cons_cons _ _ _ _ _).2 (Or.inl ⟨rfl, rfl⟩))
  refine ⟨d, hd, hp, hv, ?_⟩
  intro e he hve
  have key : nbr cur e = p := by
    rcases h.one_wall cur e hcur he hve with h1 | h1
    · rcases (link_cons_cons _ _ _ _ _).1 h1 with ⟨_, h2⟩ | h2
      · exact h2.symm
      · exact absurd (link_mem h2).1 hnd.1
    · rcases (link_cons_cons _ _ _ _ _).1 h1 with ⟨_, h2⟩ | h2
      · exact absurd (h2 ▸ List.mem_cons_self _ _) hnd.1
      · exact absurd (link_mem h2).2 hnd.1
  exact nbr_inj he hd (key.trans hp)

/-- Retreating along the wall slot that holds 1. -/
theorem Inv.back {R C : Int} {start cur p : Int × Int} {m : Grid}
    {rest visited carved : List (Int × Int)}
    (h : Inv R C start m (cur :: p :: rest) visited carved) {d : Int} (hd : IsDir d)
    (hp : p = nbr cur d) (hv : m.get (wall cur d) = 1)
    (hstuck : ∀ e, IsDir e → IsCell R C (nbr cur e) →
      m.get (wall cur e) ≠ 0 ∨ m.get (nbr cur e) ≠ 0) :
    Inv R C start ((m.bump (wall cur d)).bump p) (p :: rest) visited carved := by
  have hcurv : cur ∈ visited := h.stack_sub cur (List.mem_cons_self _ _)
  have hcur : IsCell R C cur := (h.visited_cell cur hcurv).1
  have hpv : p ∈ visited := h.stack_sub p (List.mem_cons_of_mem _ (List.mem_cons_self _ _))
  have hpc : IsCell R C p := (h.visited_cell p hpv).1
  have hnd := List.nodup_cons.1 h.stack_nodup
  have hwp : wall cur d ≠ p := fun e => wall_not_cell hd hcur (e ▸ hpc)
  have vmono : ∀ q, m.get q ≤ ((m.bump (wall cur d)).bump p).get q := fun q =>
    le_trans (get_bump_le m _ q) (get_bump_le _ _ q)
  have vw : ((m.bump (wall cur d)).bump p).get (wall cur d) = 2 := by
    rw [get_bump_ne _ hwp, get_bump_self, hv]; rfl
  have vo : ∀ q, q ≠ wall cur d → q ≠ p → ((m.bump (wall cur d)).bump p).get q = m.get q :=
    fun q h1 h2 => by rw [get_bump_ne _ h2, get_bump_ne _ h1]
  have vwall : ∀ y e, IsCell R C y → IsDir e → wall y e ≠ wall cur d →
      ((m.bump (wall cur d)).bump p).get (wall y e) = m.get (wall y e) :=
    fun y e hy he hne => vo _ hne (fun e2 => wall_not_cell he hy (e2 ▸ hpc))
  have hm : ∀ q, m.get q ≠ 0 → ((m.bump (wall cur d)).bump p).get q ≠ 0 := by
    intro q hq
    by_cases h1 : q = p
    · have := (h.visited_cell p hpv).2
      have := vmono p
      rw [h1]; omega
    · by_cases h2 : q = wall cur d
      · rw [h2, vw]; decide
      · rw [vo q h2 h1]; exact hq
  refine ⟨?_, ?_, ?_, ?_, ?_, ?_, ?_, ?_, ?_, ?_, ?_, ?_, ?_, ?_⟩
  · have := h.stack_last
    rwa [List.getLast?_cons_cons] at this
  · exact hnd.2
  · exact fun x hx => h.stack_sub x (List.mem_cons_of_mem _ hx)
  · intro a b hab
    obtain ⟨e, he, hb, hve⟩ := h.link_wall a b (link_cons _ hab)
    have ha : IsCell R C a := (h.visited_cell a (h.stack_sub a
      (List.mem_cons_of_mem _ (link_mem hab).1))).1
    refine ⟨e, he, hb, ?_⟩
    rw [vwall a e ha he ?_]
    · exact hve
    · intro e2
      rcases wall_eq_wall hd he hcur ha e2.symm with ⟨h1, _⟩ | ⟨h1, h2⟩
      · exact hnd.1 (h1 ▸ (link_mem hab).1)
      · subst h2
        rw [h1, nbr_opp hd] at hb
        exact hnd.1 (hb ▸ (link_mem hab).2)
  · exact h.visited_nodup
  · exact fun x hx => ⟨(h.visited_cell x hx).1, le_trans (h.visited_cell x hx).2 (vmono x)⟩
  · intro x hx hns e he hce
    by_cases hxc : x = cur
    · subst hxc
      rcases hstuck e he hce with h1 | h1
      · exact (h.wall_nbr_visited hcur he h1).2
      · exact h.cell_visited hce h1
    · refine h.finished x hx (fun hm2 => ?_) e he hce
      rcases List.mem_cons.1 hm2 with h1 | h1
      · exact hxc h1
      · exact hns h1
  · exact h.carved_nodup
  · intro w hwm
    obtain ⟨x, e, he, hx, hx2, rfl, hve⟩ := h.carved_wall w hwm
    refine ⟨x, e, he, hx, hx2, rfl, ?_⟩
    by_cases h1 : wall x e = wall cur d
    · rw [h1]; exact Or.inr vw
    · rw [vwall x e (h.visited_cell x hx).1 he h1]; exact hve
  · exact h.carved_len
  · intro q hq hne
    by_cases h0 : m.get q = 0
    · exfalso
      by_cases h1 : q = p
      · have := (h.visited_cell p hpv).2
        rw [h1] at h0; omega
      · by_cases h2 : q = wall cur d
        · rw [h2, hv] at h0; omega
        · rw [vo q h2 h1] at hne; exact hne h0
    · exact h.support q hq h0
  · intro x e hx he hve
    have h1 : wall x e ≠ wall cur d := fun e2 => by rw [e2, vw] at hve; omega
    rw [vwall x e hx he h1] at hve
    have hnot : ∀ a b, Link (cur :: p :: rest) a b → (a = x ∧ b = nbr x e) ∨ (a = nbr x e ∧ b = x) →
        Link (p :: rest) a b := by
      intro a b hab hxe
      rcases (link_cons_cons _ _ _ _ _).1 hab with ⟨h2, h3⟩ | h2
      · exfalso
        apply h1
        rcases hxe with ⟨h4, h5⟩ | ⟨h4, h5⟩
        · have : x = cur := by rw [← h4, h2]
          subst this
          have : e = d := nbr_inj he hd (by rw [← h5, ← hp, h3])
          rw [this]
        · have h6 : x = p := by rw [← h5, h3]
          have h7 : nbr x e = cur := by rw [← h4, h2]
          have h8 : nbr x e = nbr x (opp d) := by
            rw [h7, h6, hp, nbr_opp hd]
          have : e = opp d := nbr_inj he (isDir_opp hd) h8
          rw [this, h6, hp, wall_opp hd]
      · exact h2
    rcases h.one_wall x e hx he hve with h2 | h2
    · exact Or.inl (hnot _ _ h2 (Or.inl ⟨rfl, rfl⟩))
    · exact Or.inr (hnot _ _ h2 (Or.inr ⟨rfl, rfl⟩))
  · exact fun x hx => reach_mono hm (h.reach x hx)
  · intro x hx
    have hxc : IsCell R C x := (h.visited_cell x hx).1
    have hxw : x ≠ wall cur d := fun e => wall_not_cell hd hcur (e ▸ hxc)
    have keep : ∀ e, IsDir e → m.get (wall x e) = 2 →
        ((m.bump (wall cur d)).bump p).get (wall x e) = 2 := by
      intro e he hve
      rw [vwall x e hxc he (fun e2 => by rw [e2, hv] at hve; omega)]
      exact hve
    have hold := h.cell_le x hx
    by_cases hxp : x = p
    · subst hxp
      have hgain : twoCount m x + 1 ≤ twoCount ((m.bump (wall cur d)).bump x) x := by
        refine twoCount_gain (isDir_opp hd) ?_ ?_ keep
        · rw [hp, wall_opp hd, hv]; decide
        · rw [hp, wall_opp hd, ← hp]; exact vw
      rw [if_pos (List.mem_cons_of_mem _ (List.mem_cons_self _ _))] at hold
      rw [if_pos (List.mem_cons_self _ _), get_bump_self, get_bump_ne _ hxw]
      omega
    · rw [vo x hxw hxp]
      by_cases hxcur : x = cur
      · subst hxcur
        have hgain : twoCount m x + 1 ≤ twoCount ((m.bump (wall x d)).bump p) x :=
          twoCount_gain hd (by rw [hv]; decide) vw keep
        rw [if_pos (List.mem_cons_self _ _)] at hold
        rw [if_neg hnd.1]
        omega
      · have hmono := twoCount_mono keep
        by_cases hs : x ∈ cur :: p :: rest
        · rw [if_pos hs] at hold
          have hs2 : x ∈ p :: rest := by
            rcases List.mem_cons.1 hs with h1 | h1
            · exact absurd h1 hxcur
            · exact h1
          rw [if_pos hs2]
          omega
        · rw [if_neg hs] at hold
          rw [if_neg (fun hm2 => hs (List.mem_cons_of_mem _ hm2))]
          omega

/-! ## The cells other than the start hang together -/

theorem odd_line_fill (B : Int) (Q : Int → Prop) (a : Int) (ha : a % 2 = 1) (ha1 : 1 ≤ a)
    (haB : a ≤ B) (hQa : Q a)
    (hup : ∀ t, t % 2 = 1 → 1 ≤ t → t + 2 ≤ B → Q t → Q (t + 2))
    (hdn : ∀ t, t % 2 = 1 → 1 ≤ t - 2 → t ≤ B → Q t → Q (t - 2)) :
    ∀ t, t % 2 = 1 → 1 ≤ t → t ≤ B → Q t := by
  have up : ∀ k : Nat, a + 2 * (k : Int) ≤ B → Q (a + 2 * (k : Int)) := by
    intro k
    induction k with
    | zero => intro _; simpa using hQa
    | succ k ih =>
      intro hk
      have e : a + 2 * ((k + 1 : Nat) : Int) = (a + 2 * (k : Int)) + 2 := by push_cast; ring
      rw [e]
      exact hup _ (by omega) (by omega) (by push_cast at hk; omega) (ih (by push_cast at hk; omega))
  have dn : ∀ k : Nat, 1 ≤ a - 2 * (k : Int) → Q (a - 2 * (k : Int)) := by
    intro k
    induction k with
    | zero => intro _; simpa using hQa
    | succ k ih =>
      intro hk
      have e : a - 2 * ((k + 1 : Nat) : Int) = (a - 2 * (k : Int)) - 2 := by push_cast; ring
      rw [e]
      exact hdn _ (by omega) (by push_cast at hk; omega) (by omega) (ih (by push_cast at hk; omega))
  intro t ht ht1 htB
  rcases le_total a t with h | h
  · have e : t = a + 2 * (((t - a) / 2).toNat : Int) := by
      rw [Int.toNat_of_nonneg (by omega)]; omega
    rw [e]; exact up _ (by omega)
  · have e : t = a - 2 * (((a - t) / 2).toNat : Int) := by
      rw [Int.toNat_of_nonneg (by omega)]; omega
    rw [e]; exact dn _ (by omega)

/-- A set of cells that holds the start and one more cell, and with every cell
other than the start also that cell's four neighbours, holds every cell: the
cells without the start still hang together when there are at least two rows and
two columns of them. -/
theorem cells_closed {R C : Int} (hR : 5 ≤ R) (hC : 5 ≤ C) {start x0 : Int × Int}
    (V : Int × Int → Prop) (hstart : V start) (hx0 : V x0) (hc0 : IsCell R C x0)
    (hne : x0 ≠ start)
    (hcl : ∀ x, V x → IsCell R C x → x ≠ start → ∀ d, IsDir d → IsCell R C (nbr x d) →
      V (nbr x d)) :
    ∀ y, IsCell R C y → V y := by
  -- walking along a row that does not hold the start
  have row : ∀ r c, V (r, c) → IsCell R C (r, c) → r ≠ start.1 →
      ∀ c2, IsCell R C (r, c2) → V (r, c2) := by
    intro r c hv hc hr c2 hc2
    unfold IsCell at hc hc2
    refine odd_line_fill (C - 2) (fun t => V (r, t)) c hc.2.2.2.1 hc.2.2.2.2.1 hc.2.2.2.2.2 hv
      ?_ ?_ c2 hc2.2.2.2.1 hc2.2.2.2.2.1 hc2.2.2.2.2.2
    · intro t ht ht1 htB hq
      have := hcl (r, t) hq (by unfold IsCell; simp; omega) (fun e => hr (by rw [← e])) 0
        (by decide) (by unfold IsCell; simp [nbr, dRow, dCol]; omega)
      simpa [nbr, dRow, dCol] using this
    · intro t ht ht1 htB hq
      have := hcl (r, t) hq (by unfold IsCell; simp; omega) (fun e => hr (by rw [← e])) 2
        (by decide) (by unfold IsCell; simp [nbr, dRow, dCol]; omega)
      simpa [nbr, dRow, dCol, sub_eq_add_neg] using this
  -- walking along a column that does not hold the start
  have col : ∀ r c, V (r, c) → IsCell R C (r, c) → c ≠ start.2 →
      ∀ r2, IsCell R C (r2, c) → V (r2, c) := by
    intro r c hv hc hr r2 hc2
    unfold IsCell at hc hc2
    refine odd_line_fill (R - 2) (fun t => V (t, c)) r hc.1 hc.2.1 hc.2.2.1 hv
      ?_ ?_ r2 hc2.1 hc2.2.1 hc2.2.2.1
    · intro t ht ht1 htB hq
      have := hcl (t, c) hq (by unfold IsCell; simp; omega) (fun e => hr (by rw [← e])) 3
        (by decide) (by unfold IsCell; simp [nbr, dRow, dCol]; omega)
      simpa [nbr, dRow, dCol] using this
    · intro t ht ht1 htB hq
      have := hcl (t, c) hq (by unfold IsCell; simp; omega) (fun e => hr (by rw [← e])) 1
        (by decide) (by unfold IsCell; simp [nbr, dRow, dCol]; omega)
      simpa [nbr, dRow, dCol, sub_eq_add_neg] using this
  -- a cell in a row other than the start's row gives everything
  have fromRow : ∀ r c, V (r, c) → IsCell R C (r, c) → r ≠ start.1 → ∀ y, IsCell R C y → V y := by
    intro r c hv hc hr y hy
    obtain ⟨y1, y2⟩ := y
    by_cases hy2 : y2 = start.2
    · by_cases hy1 : y1 = start.1
      · have : (y1, y2) = start := Prod.ext hy1 hy2
        rw [this]; exact hstart
      · -- a column other than the start's column
        obtain ⟨c3, hc3, hc3n⟩ : ∃ c3, IsCell R C (r, c3) ∧ c3 ≠ start.2 := by
          by_cases h1 : start.2 = 1
          · exact ⟨3, by unfold IsCell at hc ⊢; simp; omega, by omega⟩
          · exact ⟨1, by unfold IsCell at hc ⊢; simp; omega, fun e => h1 e.symm⟩
        have h3 : V (r, c3) := row r c hv hc hr c3 hc3
        have hc4 : IsCell R C (y1, c3) := by unfold IsCell at hc3 hy ⊢; simp at hc3 hy ⊢; omega
        have h4 : V (y1, c3) := col r c3 h3 hc3 hc3n y1 hc4
        exact row y1 c3 h4 hc4 hy1 y2 hy
    · have hc2 : IsCell R C (r, y2) := by unfold IsCell at hc hy ⊢; simp at hc hy ⊢; omega
      have h2 : V (r, y2) := row r c hv hc hr y2 hc2
      exact col r y2 h2 hc2 hy2 y1 hy
  obtain ⟨r0, c0⟩ := x0
  by_cases hr0 : r0 = start.1
  · have hc0n : c0 ≠ start.2 := fun e => hne (Prod.ext hr0 e)
    obtain ⟨r3, hr3, hr3n⟩ : ∃ r3, IsCell R C (r3, c0) ∧ r3 ≠ start.1 := by
      by_cases h1 : start.1 = 1
      · exact ⟨3, by unfold IsCell at hc0 ⊢; simp at hc0 ⊢; omega, by omega⟩
      · exact ⟨1, by unfold IsCell at hc0 ⊢; simp at hc0 ⊢; omega, fun e => h1 e.symm⟩
    exact fromRow r3 c0 (col r0 c0 hx0 hc0 hc0n r3 hr3) hr3 hr3n
  · exact fromRow r0 c0 hx0 hc0 hr0

/-! ## The whole walk -/

theorem mem_cellSet {R C : Int} {x : Int × Int} : x ∈ cellSet R C ↔ IsCell R C x := by
  unfold cellSet IsCell
  simp only [Finset.mem_filter, Finset.mem_product, Finset.mem_Icc]
  tauto

theorem createMazeRest_eq (R C : Int) (rnd : Nat → Nat) (sc sr : Int) (fuel : Nat) (t : Carver) :
    createMazeRest R C rnd sc sr fuel t =
      match nextCall R C rnd t with
      | Except.error e => Except.error e
      | Except.ok s2 => createMaze R C rnd sc sr fuel s2 := by
  unfold createMazeRest nextCall
  by_cases hv : validNewPaths R C t.m t.currCol t.currRow = []
  · simp [hv]
  · simp [hv]

theorem createMaze_succ (R C : Int) (rnd : Nat → Nat) (sc sr : Int) (fuel : Nat) (s : Carver) :
    createMaze R C rnd sc sr (fuel + 1) s =
      if (s.m.bump (s.currRow, s.currCol)).get (sr, sc) > 1
      then Except.ok { s with m := s.m.bump (s.currRow, s.currCol) }
      else createMazeRest R C rnd sc sr fuel { s with m := s.m.bump (s.currRow, s.currCol) } := by
  rw [createMaze]
  rfl

theorem visited_length_le {R C : Int} {start : Int × Int} {m : Grid}
    {stack visited carved : List (Int × Int)} (h : Inv R C start m stack visited carved) :
    visited.length ≤ (cellSet R C).card := by
  rw [← List.toFinset_card_of_nodup h.visited_nodup]
  apply Finset.card_le_card
  intro x hx
  exact mem_cellSet.2 (h.visited_cell x (List.mem_toFinset.1 hx)).1

theorem visited_length_eq {R C : Int} {start : Int × Int} {m : Grid}
    {stack visited carved : List (Int × Int)} (h : Inv R C start m stack visited carved)
    (hall : ∀ y, IsCell R C y → y ∈ visited) :
    visited.length = (cellSet R C).card := by
  rw [← List.toFinset_card_of_nodup h.visited_nodup]
  congr 1
  ext x
  rw [List.mem_toFinset, mem_cellSet]
  exact ⟨fun hx => (h.visited_cell x hx).1, hall x⟩

theorem getLast_single_of_nodup {p start : Int × Int} {rest : List (Int × Int)}
    (hl : (p :: rest).getLast? = some start) (hnd : (p :: rest).Nodup) (hp : p = start) :
    rest = [] := by
  cases rest with
  | nil => rfl
  | cons q r =>
    exfalso
    rw [List.getLast?_cons_cons] at hl
    have := List.mem_of_getLast?_eq_some hl
    exact (List.nodup_cons.1 hnd).1 (hp ▸ this)

theorem rest_ne_nil_of_ne {p start : Int × Int} {rest : List (Int × Int)}
    (hl : (p :: rest).getLast? = some start) (hp : p ≠ start) : rest ≠ [] := by
  rintro rfl
  simp at hl
  exact hp hl

/-- One move of `createMaze` from a state whose start cell holds 1: the next call
is made without a fault, and either that call returns at once or the bookkeeping
holds again with the measure one smaller. -/
theorem run_step {R C : Int} (hR : 5 ≤ R) (hC : 5 ≤ C) (rnd : Nat → Nat) (start : Int × Int)
    (t : Carver) (rest visited carved : List (Int × Int))
    (h : Inv R C start t.m ((t.currRow, t.currCol) :: rest) visited carved)
    (hs : t.m.get start = 1)
    (hfresh : rest = [] → validNewPaths R C t.m t.currCol t.currRow ≠ []) :
    ∃ s2 : Carver,
      nextCall R C rnd t = Except.ok s2 ∧
      s2.errs = t.errs ∧
      ((((s2.m.bump (s2.currRow, s2.currCol)).get start = 2 ∧
          (s2.currRow, s2.currCol) = start ∧
          Carved R C start t.errs { s2 with m := s2.m.bump (s2.currRow, s2.currCol) })) ∨
       ((s2.m.bump (s2.currRow, s2.currCol)).get start = 1 ∧
          ∃ rest2 visited2 carved2,
            Inv R C start (s2.m.bump (s2.currRow, s2.currCol))
              ((s2.currRow, s2.currCol) :: rest2) visited2 carved2 ∧
            rest2 ≠ [] ∧
            2 * ((cellSet R C).card - visited2.length) + (rest2.length + 1) + 1 =
              2 * ((cellSet R C).card - visited.length) + (rest.length + 1))) := by
  have hcurv : (t.currRow, t.currCol) ∈ visited := h.stack_sub _ (List.mem_cons_self _ _)
  have hcur : IsCell R C (t.currRow, t.currCol) := (h.visited_cell _ hcurv).1
  have hstartc : IsCell R C start := h.start_cell
  by_cases hv : validNewPaths R C t.m t.currCol t.currRow = []
  · -- no new path: retreat
    have hrest : rest ≠ [] := fun e => hfresh e hv
    obtain ⟨p, rest2, rfl⟩ := List.exists_cons_of_ne_nil hrest
    obtain ⟨d, hd, hp, hw, huniq⟩ := h.head_wall
    have hnn : ∀ e, IsDir e → 0 ≤ t.m.get (wall (t.currRow, t.currCol) e) := by
      intro e he
      rcases h.wall_val hcur he with h1 | h1 | h1 <;> omega
    have hfind : findBacktrackPath t.m t.currCol t.currRow = d :=
      findBacktrackPath_eq (x := (t.currRow, t.currCol)) hd hw huniq hnn
    have hback : backtrack t = moved t d := backtrack_eq hd hfind
    have hstuck : ∀ e, IsDir e → IsCell R C (nbr (t.currRow, t.currCol) e) →
        t.m.get (wall (t.currRow, t.currCol) e) ≠ 0 ∨
        t.m.get (nbr (t.currRow, t.currCol) e) ≠ 0 := by
      intro e he hce
      by_contra hcon
      push_neg at hcon
      have : e ∈ validNewPaths R C t.m t.currCol t.currRow :=
        (mem_validNewPaths (x := (t.currRow, t.currCol)) hcur e).2 ⟨he, hcon.1, hcon.2, hce⟩
      rw [hv] at this
      exact absurd this (List.not_mem_nil _)
    have hinv := h.back hd hp hw hstuck
    have hpv : p ∈ visited := h.stack_sub p (List.mem_cons_of_mem _ (List.mem_cons_self _ _))
    have hwp : start ≠ wall (t.currRow, t.currCol) d := fun e =>
      wall_not_cell hd hcur (e ▸ hstartc)
    have hnd := List.nodup_cons.1 h.stack_nodup
    refine ⟨moved t d, ?_, rfl, ?_⟩
    · unfold nextCall
      simp only [hv, hback]
      simp
    · have hm2 : (moved t d).m.bump ((moved t d).currRow, (moved t d).currCol) =
          (t.m.bump (wall (t.currRow, t.currCol) d)).bump p := by
        rw [hp]; rfl
      have hpos : ((moved t d).currRow, (moved t d).currCol) = p := by rw [hp]; rfl
      rw [hm2, hpos]
      by_cases hps : p = start
      · left
        have hrest2 : rest2 = [] := getLast_single_of_nodup hinv.stack_last hinv.stack_nodup hps
        subst hrest2
        have hval : ((t.m.bump (wall (t.currRow, t.currCol) d)).bump p).get start = 2 := by
          rw [hps, get_bump_self, get_bump_ne _ hwp, hs]; rfl
        refine ⟨hval, hps, visited, carved, ?_, hval, ?_, rfl⟩
        · have e : [start] = [p] := by rw [hps]
          show Inv R C start ((t.m.bump (wall (t.currRow, t.currCol) d)).bump p) [start]
            visited carved
          rw [e]; exact hinv
        · have hne : (t.currRow, t.currCol) ≠ start := fun e => by
            apply hnd.1
            rw [e, ← hps]
            exact List.mem_cons_self _ _
          refine cells_closed hR hC (fun y => y ∈ visited) (h.stack_sub _ h.start_mem)
            hcurv hcur hne ?_
          intro x hx _ hxs e he hce
          refine hinv.finished x hx ?_ e he hce
          rw [hps]
          simpa using hxs
      · right
        have hval : ((t.m.bump (wall (t.currRow, t.currCol) d)).bump p).get start = 1 := by
          rw [get_bump_ne _ (Ne.symm hps), get_bump_ne _ hwp, hs]
        refine ⟨hval, rest2, visited, carved, hinv, rest_ne_nil_of_ne hinv.stack_last hps, ?_⟩
        simp only [List.length_cons]
        omega
  · -- a new path
    have hdir : ∀ d ∈ validNewPaths R C t.m t.currCol t.currRow, IsDir d := fun d hd =>
      ((mem_validNewPaths (x := (t.currRow, t.currCol)) hcur d).1 hd).1
    obtain ⟨d, hdm, _, hmk⟩ := makeNewPath_eq rnd t _ hv hdir
    obtain ⟨hd, hw, hn, hc⟩ := (mem_validNewPaths (x := (t.currRow, t.currCol)) hcur d).1 hdm
    have hinv := h.carve hd hw hn hc
    have hlen := visited_length_le hinv
    have hwp : start ≠ wall (t.currRow, t.currCol) d := fun e =>
      wall_not_cell hd hcur (e ▸ hstartc)
    have hnp : start ≠ nbr (t.currRow, t.currCol) d := fun e => by
      rw [← e, hs] at hn; omega
    refine ⟨moved { t with draws := t.draws + 1 } d, ?_, rfl, Or.inr ⟨?_, _, _, _, hinv, ?_, ?_⟩⟩
    · unfold nextCall
      simp only [hmk]
      simp [hv]
    · show ((t.m.bump (wall (t.currRow, t.currCol) d)).bump (nbr (t.currRow, t.currCol) d)).get
        start = 1
      rw [get_bump_ne _ hnp, get_bump_ne _ hwp, hs]
    · exact List.cons_ne_nil _ _
    · simp only [List.length_cons] at hlen ⊢
      omega

/-- From a state whose start cell holds 1, `createMaze` returns within the fuel
the measure allows. -/
theorem run_rest {R C : Int} (hR : 5 ≤ R) (hC : 5 ≤ C) (rnd : Nat → Nat) (start : Int × Int) :
    ∀ (n : Nat) (t : Carver) (rest visited carved : List (Int × Int)),
      Inv R C start t.m ((t.currRow, t.currCol) :: rest) visited carved →
      t.m.get start = 1 →
      (rest = [] → validNewPaths R C t.m t.currCol t.currRow ≠ []) →
      2 * ((cellSet R C).card - visited.length) + (rest.length + 1) = n + 2 →
      ∃ out, createMazeRest R C rnd start.2 start.1 (n + 1) t = Except.ok out ∧
        Carved R C start t.errs out := by
  intro n
  induction n with
  | zero =>
    intro t rest visited carved h hs hfresh hmu
    obtain ⟨s2, hrun, herr, hcase⟩ := run_step hR hC rnd start t rest visited carved h hs hfresh
    rcases hcase with ⟨hval, _, hfin⟩ | ⟨_, rest2, visited2, carved2, _, hne, hmu2⟩
    · refine ⟨_, ?_, hfin⟩
      rw [createMazeRest_eq, hrun]
      simp only
      rw [createMaze_succ]
      have : (s2.m.bump (s2.currRow, s2.currCol)).get (start.1, start.2) > 1 := by
        show (s2.m.bump (s2.currRow, s2.currCol)).get start > 1
        rw [hval]; decide
      rw [if_pos this]
    · exfalso
      have : 1 ≤ rest2.length := List.length_pos.2 hne
      omega
  | succ n ih =>
    intro t rest visited carved h hs hfresh hmu
    obtain ⟨s2, hrun, herr, hcase⟩ := run_step hR hC rnd start t rest visited carved h hs hfresh
    rcases hcase with ⟨hval, _, hfin⟩ | ⟨hval, rest2, visited2, carved2, hinv, hne, hmu2⟩
    · refine ⟨_, ?_, hfin⟩
      rw [createMazeRest_eq, hrun]
      simp only
      rw [createMaze_succ]
      have : (s2.m.bump (s2.currRow, s2.currCol)).get (start.1, start.2) > 1 := by
        show (s2.m.bump (s2.currRow, s2.currCol)).get start > 1
        rw [hval]; decide
      rw [if_pos this]
    · obtain ⟨out, hout, hfin⟩ := ih { s2 with m := s2.m.bump (s2.currRow, s2.currCol) }
        rest2 visited2 carved2 hinv hval (fun e => absurd e hne) (by omega)
      refine ⟨out, ?_, ?_⟩
      · rw [createMazeRest_eq, hrun]
        simp only
        rw [createMaze_succ]
        have : ¬ (s2.m.bump (s2.currRow, s2.currCol)).get (start.1, start.2) > 1 := by
          show ¬ (s2.m.bump (s2.currRow, s2.currCol)).get start > 1
          rw [hval]; decide
        rw [if_neg this]
        exact hout
      · rw [← herr]; exact hfin

/-- A cell has a neighbouring cell to the east or to the west. -/
theorem exists_nbr_cell {R C : Int} (hC : 5 ≤ C) {x : Int × Int} (hx : IsCell R C x) :
    ∃ d, IsDir d ∧ IsCell R C (nbr x d) := by
  unfold IsCell at hx
  by_cases h : x.2 + 2 ≤ C - 2
  · exact ⟨0, by decide, by unfold IsCell; simp [nbr, dRow, dCol]; omega⟩
  · exact ⟨2, by decide, by unfold IsCell; simp [nbr, dRow, dCol]; omega⟩

/-- The state after the first increment of `createMaze` on an array whose
entries inside the grid are all 0. -/
theorem inv_init {R C : Int} {start : Int × Int} (hstart : IsCell R C start) {m0 : Grid}
    (hz : ∀ p, InGrid R C p → m0.get p = 0) :
    Inv R C start (m0.bump start) [start] [start] [] := by
  have hs0 : m0.get start = 0 := hz start (cell_inGrid hstart)
  refine ⟨rfl, List.nodup_singleton _, fun x hx => hx, ?_, List.nodup_singleton _, ?_, ?_,
    List.nodup_nil, ?_, rfl, ?_, ?_, ?_, ?_⟩
  · intro a b hab; simp [Link] at hab
  · intro x hx
    rw [List.mem_singleton] at hx
    subst hx
    exact ⟨hstart, by rw [get_bump_self, hs0]; decide⟩
  · intro x hx hns; exact absurd hx hns
  · intro w hw; exact absurd hw (List.not_mem_nil _)
  · intro p hp hne
    left
    rw [List.mem_singleton]
    by_contra hps
    rw [get_bump_ne _ hps, hz p hp] at hne
    exact hne rfl
  · intro x d hx hd hv
    exfalso
    have hne : wall x d ≠ start := fun e => wall_not_cell hd hx (e ▸ hstart)
    rw [get_bump_ne _ hne, hz _ (wall_inGrid hd hx)] at hv
    omega
  · intro x hx
    rw [List.mem_singleton] at hx
    subst hx
    exact Relation.ReflTransGen.refl
  · intro x hx
    rw [if_pos hx]
    rw [List.mem_singleton] at hx
    subst hx
    have := twoCount_nonneg (m0.bump x) x
    rw [get_bump_self, hs0]
    omega

theorem validNewPaths_init {R C : Int} (hC : 5 ≤ C) {start : Int × Int}
    (hstart : IsCell R C start) {m0 : Grid} (hz : ∀ p, InGrid R C p → m0.get p = 0) :
    validNewPaths R C (m0.bump start) start.2 start.1 ≠ [] := by
  obtain ⟨d, hd, hc⟩ := exists_nbr_cell hC hstart
  have hw : wall start d ≠ start := fun e => wall_not_cell hd hstart (by rw [e]; exact hstart)
  have : d ∈ validNewPaths R C (m0.bump start) start.2 start.1 := by
    refine (mem_validNewPaths hstart d).2 ⟨hd, ?_, ?_, hc⟩
    · rw [get_bump_ne _ hw]; exact hz _ (wall_inGrid hd hstart)
    · rw [get_bump_ne _ (nbr_ne_self hd start)]; exact hz _ (cell_inGrid hc)
  exact List.ne_nil_of_mem this

theorem two_le_card_cellSet {R C : Int} (hC : 5 ≤ C) {start : Int × Int}
    (hstart : IsCell R C start) : 2 ≤ (cellSet R C).card := by
  obtain ⟨d, hd, hc⟩ := exists_nbr_cell hC hstart
  have : 1 < (cellSet R C).card :=
    Finset.one_lt_card.2 ⟨start, mem_cellSet.2 hstart, nbr start d, mem_cellSet.2 hc,
      (nbr_ne_self hd start).symm⟩
  omega

/-- The run of `createMaze` from a cell on an array that is 0 inside the grid
returns after `2 * (number of cells) - 1` calls, in a state described by `Carved`. -/
theorem createMaze_carved {R C : Int} (hR : 5 ≤ R) (hC : 5 ≤ C) (rnd : Nat → Nat)
    {start : Int × Int} (hstart : IsCell R C start) {m0 : Grid}
    (hz : ∀ p, InGrid R C p → m0.get p = 0) (draws errs : Nat) :
    ∃ out, createMaze R C rnd start.2 start.1 (2 * (cellSet R C).card - 1)
        { m := m0, currCol := start.2, currRow := start.1, draws := draws, errs := errs } =
          Except.ok out ∧ Carved R C start errs out := by
  have hcard := two_le_card_cellSet hC hstart
  have hs1 : (m0.bump start).get start = 1 := by
    rw [get_bump_self, hz start (cell_inGrid hstart)]; rfl
  obtain ⟨out, hout, hfin⟩ := run_rest hR hC rnd start (2 * (cellSet R C).card - 3)
    { m := m0.bump start, currCol := start.2, currRow := start.1, draws := draws, errs := errs }
    [] [start] [] (inv_init hstart hz) hs1 (fun _ => validNewPaths_init hC hstart hz)
    (by simp only [List.length_nil, List.length_singleton]; omega)
  refine ⟨out, ?_, hfin⟩
  have e : 2 * (cellSet R C).card - 1 = (2 * (cellSet R C).card - 3 + 1) + 1 := by omega
  rw [e, createMaze_succ]
  have : ¬ (m0.bump (start.1, start.2)).get (start.1, start.2) > 1 := by
    show ¬ (m0.bump start).get start > 1
    rw [hs1]; decide
  rw [if_neg this]
  exact hout

/-! ## Every call of the run -/

/-- A call that does not reach the base case continues as the call on the state
`nextCall` computes. -/
theorem createMaze_next (R C : Int) (rnd : Nat → Nat) (sc sr : Int) (fuel : Nat)
    (s s2 : Carver) (hbase : ¬ (s.m.bump (s.currRow, s.currCol)).get (sr, sc) > 1)
    (hnext : nextCall R C rnd { s with m := s.m.bump (s.currRow, s.currCol) } = Except.ok s2) :
    createMaze R C rnd sc sr (fuel + 1) s = createMaze R C rnd sc sr fuel s2 := by
  rw [createMaze_succ, if_neg hbase, createMazeRest_eq, hnext]

/-- At every call of the run from a cell on an array that is 0 inside the grid, no
message has been printed and the bookkeeping holds for the array after the
increment; the start cell then holds 1, or it holds 2 and the path is back at the
start. -/
theorem called_inv {R C : Int} (hR : 5 ≤ R) (hC : 5 ≤ C) (rnd : Nat → Nat)
    {start : Int × Int} (hstart : IsCell R C start) {m0 : Grid}
    (hz : ∀ p, InGrid R C p → m0.get p = 0) (draws errs : Nat) {s : Carver}
    (h : Called R C rnd start.2 start.1
      { m := m0, currCol := start.2, currRow := start.1, draws := draws, errs := errs } s) :
    s.errs = errs ∧ ∃ rest visited carved,
      Inv R C start (s.m.bump (s.currRow, s.currCol)) ((s.currRow, s.currCol) :: rest)
        visited carved ∧
      (((s.m.bump (s.currRow, s.currCol)).get start = 1 ∧
          (rest = [] →
            validNewPaths R C (s.m.bump (s.currRow, s.currCol)) s.currCol s.currRow ≠ [])) ∨
        ((s.m.bump (s.currRow, s.currCol)).get start = 2 ∧ rest = [])) := by
  induction h with
  | first =>
    refine ⟨rfl, [], [start], [], inv_init hstart hz, Or.inl ⟨?_, fun _ => ?_⟩⟩
    · show (m0.bump start).get start = 1
      rw [get_bump_self, hz start (cell_inGrid hstart)]; rfl
    · exact validNewPaths_init hC hstart hz
  | next hs hbase hnext ih =>
    rename_i s s2
    obtain ⟨herr, rest, visited, carved, hinv, hcase⟩ := ih
    rcases hcase with ⟨hval, hfresh⟩ | ⟨hval, _⟩
    · obtain ⟨s3, hn3, herr3, hcase3⟩ := run_step hR hC rnd start
        { s with m := s.m.bump (s.currRow, s.currCol) } rest visited carved hinv hval hfresh
      have e : s3 = s2 := Except.ok.inj (hn3.symm.trans hnext)
      subst e
      refine ⟨herr3.trans herr, ?_⟩
      rcases hcase3 with ⟨hv3, hpos, vis, car, hinv3, _, _, _⟩ | ⟨hv3, rest3, vis, car, hinv3, hne, _⟩
      · refine ⟨[], vis, car, ?_, Or.inr ⟨hv3, rfl⟩⟩
        have e : [(s3.currRow, s3.currCol)] = [start] := by rw [hpos]
        rw [e]; exact hinv3
      · exact ⟨rest3, vis, car, hinv3, Or.inl ⟨hv3, fun e => absurd e hne⟩⟩
    · exfalso
      apply hbase
      show (s.m.bump (s.currRow, s.currCol)).get start > 1
      rw [hval]; decide

/-- When there is no valid new path at the head of the path and the start cell holds
1, the wall slot in the direction `findBacktrackPath` returns holds 1. -/
theorem backtrack_wall_one {R C : Int} {start cur : Int × Int} {m : Grid}
    {rest visited carved : List (Int × Int)}
    (h : Inv R C start m (cur :: rest) visited carved)
    (hfresh : rest = [] → validNewPaths R C m cur.2 cur.1 ≠ [])
    (hv : validNewPaths R C m cur.2 cur.1 = []) :
    IsDir (findBacktrackPath m cur.2 cur.1) ∧
      m.get (wall cur (findBacktrackPath m cur.2 cur.1)) = 1 := by
  have hcur : IsCell R C cur := (h.visited_cell cur (h.stack_sub cur (List.mem_cons_self _ _))).1
  have hrest : rest ≠ [] := fun e => hfresh e hv
  obtain ⟨p, rest2, rfl⟩ := List.exists_cons_of_ne_nil hrest
  obtain ⟨d, hd, _, hw, huniq⟩ := h.head_wall
  have hnn : ∀ e, IsDir e → 0 ≤ m.get (wall cur e) := by
    intro e he
    rcases h.wall_val hcur he with h1 | h1 | h1 <;> omega
  rw [findBacktrackPath_eq hd hw huniq hnn]
  exact ⟨hd, hw⟩

/-! ## More fuel does not change the result -/

theorem createMaze_fuel_succ (R C : Int) (rnd : Nat → Nat) (sc sr : Int) :
    ∀ (fuel : Nat) (s out : Carver), createMaze R C rnd sc sr fuel s = Except.ok out →
      createMaze R C rnd sc sr (fuel + 1) s = Except.ok out := by
  intro fuel
  induction fuel with
  | zero => intro s out h; simp [createMaze] at h
  | succ n ih =>
    intro s out h
    rw [createMaze_succ] at h ⊢
    split at h
    · next hpos => rw [if_pos hpos]; exact h
    · next hneg =>
      rw [if_neg hneg]
      unfold createMazeRest at h ⊢
      simp only at h ⊢
      split at h
      · next hv =>
        rw [if_pos hv]
        split at h
        · exact absurd h (by simp)
        · exact ih _ _ h
      · next hv =>
        rw [if_neg hv]
        split at h
        · next hv2 => rw [if_pos hv2]; exact ih _ _ h
        · next hv2 => rw [if_neg hv2]; exact h

theorem createMaze_fuel_add (R C : Int) (rnd : Nat → Nat) (sc sr : Int) (fuel k : Nat)
    (s out : Carver) (h : createMaze R C rnd sc sr fuel s = Except.ok out) :
    createMaze R C rnd sc sr (fuel + k) s = Except.ok out := by
  induction k with
  | zero => exact h
  | succ k ih => exact createMaze_fuel_succ R C rnd sc sr _ s out ih

/-- The result of `createMaze` does not depend on the fuel that let it return. -/
theorem createMaze_fuel_unique {R C : Int} {rnd : Nat → Nat} {sc sr : Int} {f1 f2 : Nat}
    {s o1 o2 : Carver} (h1 : createMaze R C rnd sc sr f1 s = Except.ok o1)
    (h2 : createMaze R C rnd sc sr f2 s = Except.ok o2) : o1 = o2 := by
  have e1 := createMaze_fuel_add R C rnd sc sr f1 f2 s o1 h1
  have e2 := createMaze_fuel_add R C rnd sc sr f2 f1 s o2 h2
  rw [Nat.add_comm] at e2
  rw [e1] at e2
  exact Except.ok.inj e2

/-- Every return of `createMaze` from a cell on an array that is 0 inside the grid
is the state described by `Carved`. -/
theorem createMaze_ok_carved {R C : Int} (hR : 5 ≤ R) (hC : 5 ≤ C) {rnd : Nat → Nat}
    {start : Int × Int} (hstart : IsCell R C start) {m0 : Grid}
    (hz : ∀ p, InGrid R C p → m0.get p = 0) {draws errs fuel : Nat} {out : Carver}
    (h : createMaze R C rnd start.2 start.1 fuel
      { m := m0, currCol := start.2, currRow := start.1, draws := draws, errs := errs } =
        Except.ok out) : Carved R C start errs out := by
  obtain ⟨out2, h2, hc⟩ := createMaze_carved hR hC rnd hstart hz draws errs
  rw [createMaze_fuel_unique h h2]
  exact hc

theorem card_cellSet_17_25 : (cellSet 17 25).card = 96 := by decide

theorem card_cellSet_5_5 : (cellSet 5 5).card = 4 := by decide

/-! ## The openings and the start position -/

theorem pickOpening_spec (rnd : Nat → Nat) (n : Int) (hn : 0 < n) (line : Int → Int) :
    ∀ (fuel draws : Nat) (idx : Int) (draws2 : Nat),
      pickOpening rnd n line fuel draws = Except.ok (idx, draws2) →
      1 ≤ idx ∧ idx ≤ n ∧ line idx ≠ 0 ∧ ∃ k, idx = (rnd k : Int) % n + 1 := by
  intro fuel
  induction fuel with
  | zero => intro draws idx draws2 h; simp [pickOpening] at h
  | succ f ih =>
    intro draws idx draws2 h
    rw [pickOpening] at h
    rw [if_neg (by omega)] at h
    simp only at h
    split at h
    · exact ih _ _ _ h
    · next hline =>
      have e := Except.ok.inj h
      have e1 : (rnd draws : Int) % n + 1 = idx := congrArg Prod.fst e
      have h1 := Int.emod_nonneg (rnd draws : Int) (by omega : n ≠ 0)
      have h2 := Int.emod_lt_of_pos (rnd draws : Int) hn
      rw [e1] at hline
      exact ⟨by omega, by omega, hline, draws, e1.symm⟩

theorem pickOpening_hit (rnd : Nat → Nat) (n : Int) (hn : n ≠ 0) (line : Int → Int)
    (fuel draws : Nat) (h : line ((rnd draws : Int) % n + 1) ≠ 0) :
    pickOpening rnd n line (fuel + 1) draws =
      Except.ok ((rnd draws : Int) % n + 1, draws + 1) := by
  rw [pickOpening, if_neg hn]
  simp only
  rw [if_neg h]

/-- What `createOpenings` does when it returns: one slot of the east column and
one of the west column are incremented, or one of the north row and one of the
south row, each next to an entry that is not 0. -/
theorem createOpenings_spec {R C : Int} (hR : 3 ≤ R) (hC : 3 ≤ C) {rnd : Nat → Nat} {fuel : Nat}
    {m : Grid} {draws : Nat} {res : Grid × Nat}
    (h : createOpenings R C rnd fuel m draws = Except.ok res) :
    (∃ i j, 1 ≤ i ∧ i ≤ R - 2 ∧ 1 ≤ j ∧ j ≤ R - 2 ∧ m.get (i, C - 2) ≠ 0 ∧ m.get (j, 1) ≠ 0 ∧
        res.1 = (m.bump (i, C - 1)).bump (j, 0)) ∨
    (∃ i j, 1 ≤ i ∧ i ≤ C - 2 ∧ 1 ≤ j ∧ j ≤ C - 2 ∧ m.get (1, i) ≠ 0 ∧ m.get (R - 2, j) ≠ 0 ∧
        res.1 = (m.bump (0, i)).bump (R - 1, j)) := by
  unfold createOpenings at h
  simp only at h
  split at h
  · left
    split at h
    · exact absurd h (by simp)
    · next i d1 h1 =>
      split at h
      · exact absurd h (by simp)
      · next j d2 h2 =>
        obtain ⟨a1, a2, a3, _⟩ := pickOpening_spec rnd (R - 2) (by omega) _ _ _ _ _ h1
        obtain ⟨b1, b2, b3, _⟩ := pickOpening_spec rnd (R - 2) (by omega) _ _ _ _ _ h2
        refine ⟨i, j, a1, a2, b1, b2, a3, ?_, ?_⟩
        · have hne : ¬ (j = i ∧ (1 : Int) = C - 1) := fun hh => by omega
          simpa [Grid.incr, hne] using b3
        · have e := Except.ok.inj h
          rw [← e]; rfl
  · right
    split at h
    · exact absurd h (by simp)
    · next i d1 h1 =>
      split at h
      · exact absurd h (by simp)
      · next j d2 h2 =>
        obtain ⟨a1, a2, a3, _⟩ := pickOpening_spec rnd (C - 2) (by omega) _ _ _ _ _ h1
        obtain ⟨b1, b2, b3, _⟩ := pickOpening_spec rnd (C - 2) (by omega) _ _ _ _ _ h2
        refine ⟨i, j, a1, a2, b1, b2, a3, ?_, ?_⟩
        · have hne : ¬ (R - 2 = 0 ∧ j = i) := fun hh => by omega
          simpa [Grid.incr, hne] using b3
        · have e := Except.ok.inj h
          rw [← e]; rfl

theorem pickStart_spec (rnd : Nat → Nat) (n : Int) (hn : 0 < n) :
    ∀ (fuel draws : Nat) (x : Int) (draws2 : Nat),
      pickStart rnd n fuel draws = Except.ok (x, draws2) → x % 2 = 1 ∧ 1 ≤ x ∧ x ≤ n := by
  intro fuel
  induction fuel with
  | zero => intro draws x draws2 h; simp [pickStart] at h
  | succ f ih =>
    intro draws x draws2 h
    rw [pickStart] at h
    rw [if_neg (by omega)] at h
    simp only at h
    split at h
    · exact ih _ _ _ h
    · next hodd =>
      have e := Except.ok.inj h
      have e1 : (rnd draws : Int) % n + 1 = x := congrArg Prod.fst e
      have h1 := Int.emod_nonneg (rnd draws : Int) (by omega : n ≠ 0)
      have h2 := Int.emod_lt_of_pos (rnd draws : Int) hn
      rw [e1] at hodd
      exact ⟨by omega, by omega, by omega⟩

/-! ## What the carved array looks like -/

theorem mem_gridSet {R C : Int} {p : Int × Int} : p ∈ gridSet R C ↔ InGrid R C p := by
  unfold gridSet InGrid
  simp only [Finset.mem_product, Finset.mem_Icc]
  constructor <;> intro h <;> omega

/-- The wall slot between two cells lies strictly inside the outer ring and has
exactly one odd coordinate. -/
theorem wall_between {R C : Int} {x : Int × Int} {d : Int} (hd : IsDir d) (hx : IsCell R C x)
    (hn : IsCell R C (nbr x d)) : Inside R C (wall x d) ∧ IsWallSlot (wall x d) := by
  unfold IsCell at hx hn
  unfold Inside IsWallSlot
  rcases hd with hd | hd | hd | hd <;> subst hd <;>
    simp [wall, nbr, dRow, dCol] at hn ⊢ <;> omega

section CarvedFacts

variable {R C : Int} {start : Int × Int} {m : Grid} {stack visited carved : List (Int × Int)}

theorem Inv.carved_between (h : Inv R C start m stack visited carved) {w : Int × Int}
    (hw : w ∈ carved) : Inside R C w ∧ IsWallSlot w ∧ m.get w ≠ 0 := by
  obtain ⟨x, d, hd, hx, hx2, rfl, hv⟩ := h.carved_wall w hw
  have := wall_between hd (h.visited_cell x hx).1 (h.visited_cell _ hx2).1
  exact ⟨this.1, this.2, by omega⟩

/-- Inside the array only cells and wall slots between two cells are not 0. -/
theorem Inv.nonzero_inside (h : Inv R C start m stack visited carved) {p : Int × Int}
    (hp : InGrid R C p) (hne : m.get p ≠ 0) : Inside R C p ∧ ¬ (p.1 % 2 = 0 ∧ p.2 % 2 = 0) := by
  rcases h.support p hp hne with h1 | h1
  · have := (h.visited_cell p h1).1
    unfold IsCell at this
    unfold Inside
    omega
  · have := h.carved_between h1
    unfold IsWallSlot at this
    exact ⟨this.1, by omega⟩

theorem Inv.border_zero (h : Inv R C start m stack visited carved) {p : Int × Int}
    (hp : IsBorder R C p) : m.get p = 0 := by
  by_contra hne
  have := (h.nonzero_inside hp.1 hne).1
  unfold Inside at this
  have := hp.2
  omega

/-- The wall slots that are not 0 are the carved ones, one fewer than the cells
entered. -/
theorem Inv.wall_count (h : Inv R C start m stack visited carved) :
    ((gridSet R C).filter (fun p => IsWallSlot p ∧ m.get p ≠ 0)).card + 1 = visited.length := by
  have e : (gridSet R C).filter (fun p => IsWallSlot p ∧ m.get p ≠ 0) = carved.toFinset := by
    ext p
    simp only [Finset.mem_filter, mem_gridSet, List.mem_toFinset]
    constructor
    · rintro ⟨hp, hw, hne⟩
      rcases h.support p hp hne with h1 | h1
      · exfalso
        have := (h.visited_cell p h1).1
        unfold IsCell at this
        unfold IsWallSlot at hw
        omega
      · exact h1
    · intro hp
      have := h.carved_between hp
      refine ⟨?_, this.2.1, this.2.2⟩
      have := this.1
      unfold Inside at this
      unfold InGrid
      omega
  rw [e, List.toFinset_card_of_nodup h.carved_nodup]
  exact h.carved_len

end CarvedFacts

theorem Carved.cells {R C : Int} {start : Int × Int} {errs : Nat} {out : Carver}
    (h : Carved R C start errs out) {y : Int × Int} (hy : IsCell R C y) :
    out.m.get y ≠ 0 ∧ Reach R C out.m start y := by
  obtain ⟨visited, carved, hinv, _, hall, _⟩ := h
  have hv := hall y hy
  have := (hinv.visited_cell y hv).2
  exact ⟨by omega, hinv.reach y hv⟩

theorem Carved.walls_card {R C : Int} {start : Int × Int} {errs : Nat} {out : Carver}
    (h : Carved R C start errs out) :
    ((gridSet R C).filter (fun p => IsWallSlot p ∧ out.m.get p ≠ 0)).card + 1 =
      (cellSet R C).card := by
  obtain ⟨visited, carved, hinv, _, hall, _⟩ := h
  rw [hinv.wall_count, visited_length_eq hinv hall]

theorem Carved.ring_zero {R C : Int} {start : Int × Int} {errs : Nat} {out : Carver}
    (h : Carved R C start errs out) {p : Int × Int} (hp : IsBorder R C p) : out.m.get p = 0 := by
  obtain ⟨visited, carved, hinv, _, _, _⟩ := h
  exact hinv.border_zero hp

theorem Carved.start_val {R C : Int} {start : Int × Int} {errs : Nat} {out : Carver}
    (h : Carved R C start errs out) : out.m.get start = 2 := by
  obtain ⟨_, _, _, hv, _, _⟩ := h
  exact hv

/-- When `createMaze` returns, every wall slot between cells holds 0 or 2. -/
theorem Carved.wall_zero_or_two {R C : Int} {start : Int × Int} {errs : Nat} {out : Carver}
    (h : Carved R C start errs out) {p : Int × Int} (hp : InGrid R C p) (hw : IsWallSlot p) :
    out.m.get p = 0 ∨ out.m.get p = 2 := by
  obtain ⟨visited, carved, hinv, _, _, _⟩ := h
  by_cases hne : out.m.get p = 0
  · exact Or.inl hne
  · right
    rcases hinv.support p hp hne with h1 | h1
    · exfalso
      have := (hinv.visited_cell p h1).1
      unfold IsCell at this
      unfold IsWallSlot at hw
      omega
    · obtain ⟨x, d, hd, hx, _, rfl, hv⟩ := hinv.carved_wall p h1
      rcases hv with hv | hv
      · exfalso
        rcases hinv.one_wall x d (hinv.visited_cell x hx).1 hd hv with h2 | h2 <;>
          simp [Link] at h2
      · exact hv

/-- When `createMaze` returns, every cell holds a value between 1 and 4. -/
theorem Carved.cell_bounds {R C : Int} {start : Int × Int} {errs : Nat} {out : Carver}
    (h : Carved R C start errs out) {y : Int × Int} (hy : IsCell R C y) :
    1 ≤ out.m.get y ∧ out.m.get y ≤ 4 := by
  obtain ⟨visited, carved, hinv, hs, hall, _⟩ := h
  have hv := hall y hy
  refine ⟨(hinv.visited_cell y hv).2, ?_⟩
  by_cases hys : y = start
  · rw [hys, hs]; decide
  · have := hinv.cell_le y hv
    rw [if_neg (by simpa using hys)] at this
    have := twoCount_le_four out.m y
    omega

/-- When `createMaze` returns, no entry of the array is negative or exceeds 4. -/
theorem Carved.entry_bounds {R C : Int} {start : Int × Int} {errs : Nat} {out : Carver}
    (h : Carved R C start errs out) {p : Int × Int} (hp : InGrid R C p) :
    0 ≤ out.m.get p ∧ out.m.get p ≤ 4 := by
  by_cases hc : IsCell R C p
  · have := h.cell_bounds hc
    omega
  · by_cases hne : out.m.get p = 0
    · rw [hne]; decide
    · have hw : IsWallSlot p := by
        obtain ⟨visited, carved, hinv, _, _, _⟩ := h
        rcases hinv.support p hp hne with h1 | h1
        · exact absurd (hinv.visited_cell p h1).1 hc
        · exact (hinv.carved_between h1).2.1
      rcases h.wall_zero_or_two hp hw with h1 | h1 <;> omega

/-! ## Paths of open entries -/

theorem adjacent_symm {a b : Int × Int} (h : Adjacent a b) : Adjacent b a := by
  unfold Adjacent at *; omega

theorem joined_symm {R C : Int} {m : Grid} {a b : Int × Int} (h : Joined R C m a b) :
    Joined R C m b a := by
  have hs : Symmetric (OpenStep R C m) := by
    rintro x y ⟨h1, h2, h3, h4, h5⟩
    exact ⟨adjacent_symm h1, h3, h2, h5, h4⟩
  exact Relation.ReflTransGen.symmetric hs h

theorem joined_trans {R C : Int} {m : Grid} {a b c : Int × Int} (h1 : Joined R C m a b)
    (h2 : Joined R C m b c) : Joined R C m a c :=
  Relation.ReflTransGen.trans h1 h2

theorem joined_mono {R C : Int} {m m2 : Grid} {a b : Int × Int}
    (hm : ∀ p, m.get p ≠ 0 → m2.get p ≠ 0) (h : Joined R C m a b) : Joined R C m2 a b := by
  refine Relation.ReflTransGen.mono ?_ h
  rintro x y ⟨h1, h2, h3, h4, h5⟩
  exact ⟨h1, h2, h3, hm _ h4, hm _ h5⟩

theorem adjacent_wall {x : Int × Int} {d : Int} (hd : IsDir d) :
    Adjacent x (wall x d) ∧ Adjacent (wall x d) (nbr x d) := by
  unfold Adjacent
  rcases hd with hd | hd | hd | hd <;> subst hd <;> simp [wall, nbr, dRow, dCol] <;> omega

/-- A carved move is two steps through open entries. -/
theorem joined_of_carvedMove {R C : Int} {m : Grid} {a b : Int × Int} (ha : IsCell R C a)
    (hma : m.get a ≠ 0) (hmb : m.get b ≠ 0) (h : CarvedMove R C m a b) : Joined R C m a b := by
  obtain ⟨hb, d, hd, rfl, hw⟩ := h
  have hadj := adjacent_wall (x := a) hd
  have hwg := wall_inGrid hd ha
  exact Relation.ReflTransGen.tail
    (Relation.ReflTransGen.single ⟨hadj.1, cell_inGrid ha, hwg, hma, hw⟩)
    ⟨hadj.2, hwg, cell_inGrid hb, hw, hmb⟩

theorem Carved.joined_cell {R C : Int} {start : Int × Int} {errs : Nat} {out : Carver}
    (h : Carved R C start errs out) (hstart : IsCell R C start) {y : Int × Int}
    (hy : IsCell R C y) : Joined R C out.m start y := by
  have hr := (h.cells hy).2
  have key : ∀ z, Reach R C out.m start z → IsCell R C z ∧ Joined R C out.m start z := by
    intro z hz
    induction hz with
    | refl => exact ⟨hstart, Relation.ReflTransGen.refl⟩
    | tail _ hstep ih =>
      refine ⟨hstep.1, joined_trans ih.2 ?_⟩
      exact joined_of_carvedMove ih.1 (h.cells ih.1).1 (h.cells hstep.1).1 hstep
  exact (key y hr).2

/-- Every entry of the carved array that is not 0 is joined to the start cell. -/
theorem Carved.joined_start {R C : Int} {start : Int × Int} {errs : Nat} {out : Carver}
    (h : Carved R C start errs out) (hstart : IsCell R C start) {p : Int × Int}
    (hp : InGrid R C p) (hne : out.m.get p ≠ 0) : Joined R C out.m start p := by
  obtain ⟨visited, carved, hinv, hv, hall, he⟩ := h
  have hc : Carved R C start errs out := ⟨visited, carved, hinv, hv, hall, he⟩
  rcases hinv.support p hp hne with h1 | h1
  · exact hc.joined_cell hstart (hinv.visited_cell p h1).1
  · obtain ⟨x, d, hd, hx, _, rfl, _⟩ := hinv.carved_wall p h1
    have hxc := (hinv.visited_cell x hx).1
    exact Relation.ReflTransGen.tail (hc.joined_cell hstart hxc)
      ⟨(adjacent_wall hd).1, cell_inGrid hxc, hp, (hc.cells hxc).1, hne⟩

theorem Carved.joined {R C : Int} {start : Int × Int} {errs : Nat} {out : Carver}
    (h : Carved R C start errs out) (hstart : IsCell R C start) {p q : Int × Int}
    (hp : InGrid R C p) (hpn : out.m.get p ≠ 0) (hq : InGrid R C q) (hqn : out.m.get q ≠ 0) :
    Joined R C out.m p q :=
  joined_trans (joined_symm (h.joined_start hstart hp hpn)) (h.joined_start hstart hq hqn)

/-! ## The two openings -/

theorem openings_result {R C : Int} (hR : 3 ≤ R) (hC : 3 ≤ C) {rnd : Nat → Nat} {fuel : Nat}
    {m : Grid} {draws : Nat} {res : Grid × Nat} (hb : ∀ p, IsBorder R C p → m.get p = 0)
    (h : createOpenings R C rnd fuel m draws = Except.ok res) :
    ∃ a b, TwoOpenings R C res.1 a b ∧ OpposingOpenings R C res.1 a b ∧
      res.1 = (m.bump a).bump b := by
  have main : ∀ a b : Int × Int, a ≠ b → IsBorder R C a → IsBorder R C b →
      TwoOpenings R C ((m.bump a).bump b) a b := by
    intro a b hab ha hbb
    refine ⟨hab, ha, hbb, ?_, ?_, ?_⟩
    · rw [get_bump_ne _ hab, get_bump_self, hb a ha]; decide
    · rw [get_bump_self, get_bump_ne _ (Ne.symm hab), hb b hbb]; decide
    · intro p hp hne
      by_contra hcon
      push_neg at hcon
      rw [get_bump_ne _ hcon.2, get_bump_ne _ hcon.1] at hne
      exact hne (hb p hp)
  rcases createOpenings_spec hR hC h with ⟨i, j, hi1, hi2, hj1, hj2, hmi, hmj, hres⟩ |
    ⟨i, j, hi1, hi2, hj1, hj2, hmi, hmj, hres⟩
  · refine ⟨(i, C - 1), (j, 0), ?_, ?_, hres⟩
    · rw [hres]
      refine main _ _ ?_ ?_ ?_
      · simp [Prod.ext_iff]; omega
      · unfold IsBorder InGrid; simp; omega
      · unfold IsBorder InGrid; simp; omega
    · left
      refine ⟨rfl, rfl, hi1, hi2, hj1, hj2, ?_, ?_⟩
      · rw [hres, get_bump_ne _ (by simp [Prod.ext_iff]; omega),
          get_bump_ne _ (by simp [Prod.ext_iff])]
        exact hmi
      · rw [hres, get_bump_ne _ (by simp [Prod.ext_iff]),
          get_bump_ne _ (by simp [Prod.ext_iff]; omega)]
        exact hmj
  · refine ⟨(0, i), (R - 1, j), ?_, ?_, hres⟩
    · rw [hres]
      refine main _ _ ?_ ?_ ?_
      · simp [Prod.ext_iff]; omega
      · unfold IsBorder InGrid; simp; omega
      · unfold IsBorder InGrid; simp; omega
    · right
      refine ⟨rfl, rfl, hi1, hi2, hj1, hj2, ?_, ?_⟩
      · rw [hres, get_bump_ne _ (by simp [Prod.ext_iff]; omega),
          get_bump_ne _ (by simp [Prod.ext_iff])]
        exact hmi
      · rw [hres, get_bump_ne _ (by simp [Prod.ext_iff]),
          get_bump_ne _ (by simp [Prod.ext_iff]; omega)]
        exact hmj

/-! ## Helper facts for the claims -/

theorem zero_get_of_zero {R C : Int} {m0 : Grid}
    (hzero : ∀ r c, 0 ≤ r → r < R → 0 ≤ c → c < C → m0 r c = 0) :
    ∀ p, InGrid R C p → m0.get p = 0 :=
  fun p hp => hzero p.1 p.2 hp.1 hp.2.1 hp.2.2.1 hp.2.2.2

theorem Carved.open_inside {R C : Int} {start : Int × Int} {errs : Nat} {out : Carver}
    (h : Carved R C start errs out) {p : Int × Int} (hp : InGrid R C p)
    (hne : out.m.get p ≠ 0) : Inside R C p := by
  obtain ⟨visited, carved, hinv, _, _, _⟩ := h
  exact (hinv.nonzero_inside hp hne).1

/-- With every draw equal to 0 `createOpenings` takes the east and west sides and
tries index 1 in both loops. -/
theorem createOpenings_zero_draws {R C : Int} (hR : 3 ≤ R) (hC : 3 ≤ C) (m : Grid) (draws : Nat)
    (h1 : m 1 (C - 2) ≠ 0) (h2 : m 1 1 ≠ 0) :
    createOpenings R C (fun _ => 0) 1 m draws =
      Except.ok ((m.incr 1 (C - 1)).incr 1 0, draws + 1 + 1 + 1) := by
  have e : ((0 : Nat) : Int) % (R - 2) + 1 = 1 := by simp
  unfold createOpenings
  simp only [Nat.zero_mod, if_true]
  rw [pickOpening_hit (fun _ => 0) (R - 2) (by omega) _ 0 (draws + 1) (by rw [e]; exact h1)]
  simp only [e]
  rw [pickOpening_hit (fun _ => 0) (R - 2) (by omega) _ 0 (draws + 1 + 1)
    (by
      rw [e]
      have hne : ¬ ((1 : Int) = C - 1) := fun hh => by omega
      simpa [Grid.incr, hne] using h2)]
  simp only [e]

/-! ## The claims -/

/-- C1: with `ROW_NUM = 17` and `COL_NUM = 25`, from every odd/odd interior start and
for every stream of draws, `createMaze` on an array that is 0 everywhere inside the
grid returns (191 calls suffice), and in the array it returns every odd/odd cell of
rows 1..15 and columns 1..23 is not 0 and is reached from the start cell by moves of
two between cells through wall slots that are not 0. -/
theorem C1_createMaze_reaches_every_cell (startRow startCol : Int) (rnd : Nat → Nat)
    (m0 : Grid) (draws : Nat)
    (hrow : startRow % 2 = 1 ∧ 1 ≤ startRow ∧ startRow ≤ 15)
    (hcol : startCol % 2 = 1 ∧ 1 ≤ startCol ∧ startCol ≤ 23)
    (hzero : ∀ r c, 0 ≤ r → r < 17 → 0 ≤ c → c < 25 → m0 r c = 0) :
    ∃ out, createMaze 17 25 rnd startCol startRow 191
        { m := m0, currCol := startCol, currRow := startRow, draws := draws, errs := 0 } =
          Except.ok out ∧
      ∀ r c, r % 2 = 1 → 1 ≤ r → r ≤ 15 → c % 2 = 1 → 1 ≤ c → c ≤ 23 →
        out.m r c ≠ 0 ∧ Reach 17 25 out.m (startRow, startCol) (r, c) := by
  have hstart : IsCell 17 25 (startRow, startCol) := by unfold IsCell; simp; omega
  obtain ⟨out, hout, hc⟩ := createMaze_carved (by norm_num) (by norm_num) rnd hstart
    (zero_get_of_zero hzero) draws 0
  rw [card_cellSet_17_25] at hout
  refine ⟨out, hout, ?_⟩
  intro r c h1 h2 h3 h4 h5 h6
  exact hc.cells (y := (r, c)) (by unfold IsCell; simp; omega)

/-- The hypotheses of C1 hold for the start `(1, 1)`, the all-zero array and the
stream of draws that is constantly 0. -/
theorem C1_witness :
    ∃ out, createMaze 17 25 (fun _ => 0) 1 1 191
        { m := zeroGrid, currCol := 1, currRow := 1, draws := 0, errs := 0 } = Except.ok out ∧
      ∀ r c, r % 2 = 1 → 1 ≤ r → r ≤ 15 → c % 2 = 1 → 1 ≤ c → c ≤ 23 →
        out.m r c ≠ 0 ∧ Reach 17 25 out.m (1, 1) (r, c) :=
  C1_createMaze_reaches_every_cell 1 1 (fun _ => 0) zeroGrid 0 (by decide) (by decide)
    (fun _ _ _ _ _ _ => rfl)

/-- C2: with `ROW_NUM = 17` and `COL_NUM = 25`, from every odd/odd interior start and
for every stream of draws, in the array `createMaze` returns the number of wall slots
(exactly one odd coordinate) that are not 0 is `8 * 12 - 1 = 95`. -/
theorem C2_carved_walls_one_less_than_cells (startRow startCol : Int) (rnd : Nat → Nat)
    (m0 : Grid) (draws : Nat)
    (hrow : startRow % 2 = 1 ∧ 1 ≤ startRow ∧ startRow ≤ 15)
    (hcol : startCol % 2 = 1 ∧ 1 ≤ startCol ∧ startCol ≤ 23)
    (hzero : ∀ r c, 0 ≤ r → r < 17 → 0 ≤ c → c < 25 → m0 r c = 0) :
    ∃ out, createMaze 17 25 rnd startCol startRow 191
        { m := m0, currCol := startCol, currRow := startRow, draws := draws, errs := 0 } =
          Except.ok out ∧
      ((Finset.Icc (0 : Int) 16 ×ˢ Finset.Icc (0 : Int) 24).filter
        (fun p => p.1 % 2 ≠ p.2 % 2 ∧ out.m p.1 p.2 ≠ 0)).card = 95 := by
  have hstart : IsCell 17 25 (startRow, startCol) := by unfold IsCell; simp; omega
  obtain ⟨out, hout, hc⟩ := createMaze_carved (by norm_num) (by norm_num) rnd hstart
    (zero_get_of_zero hzero) draws 0
  rw [card_cellSet_17_25] at hout
  refine ⟨out, hout, ?_⟩
  have := hc.walls_card
  rw [card_cellSet_17_25] at this
  have e : (gridSet 17 25).filter (fun p => IsWallSlot p ∧ out.m.get p ≠ 0) =
      (Finset.Icc (0 : Int) 16 ×ˢ Finset.Icc (0 : Int) 24).filter
        (fun p => p.1 % 2 ≠ p.2 % 2 ∧ out.m p.1 p.2 ≠ 0) := rfl
  rw [e] at this
  omega

/-- The hypotheses of C2 hold for the start `(15, 23)`, the all-zero array and the
stream of draws `0, 1, 2, ...`. -/
theorem C2_witness :
    ∃ out, createMaze 17 25 (fun n => n) 23 15 191
        { m := zeroGrid, currCol := 23, currRow := 15, draws := 0, errs := 0 } = Except.ok out ∧
      ((Finset.Icc (0 : Int) 16 ×ˢ Finset.Icc (0 : Int) 24).filter
        (fun p => p.1 % 2 ≠ p.2 % 2 ∧ out.m p.1 p.2 ≠ 0)).card = 95 :=
  C2_carved_walls_one_less_than_cells 15 23 (fun n => n) zeroGrid 0 (by decide) (by decide)
    (fun _ _ _ _ _ _ => rfl)

/-- C3: with `ROW_NUM = 17` and `COL_NUM = 25`, whenever `createMaze` from an odd/odd
interior start on an array that is 0 inside the grid has returned and `createOpenings`
then returns, the resulting array has exactly two border entries that are not 0 (the
two openings), and they are joined by a path of orthogonally adjacent entries that are
not 0. -/
theorem C3_openings_joined (startRow startCol : Int) (rnd : Nat → Nat) (m0 : Grid)
    (draws fuel fuelOpen : Nat) (out : Carver) (res : Grid × Nat)
    (hrow : startRow % 2 = 1 ∧ 1 ≤ startRow ∧ startRow ≤ 15)
    (hcol : startCol % 2 = 1 ∧ 1 ≤ startCol ∧ startCol ≤ 23)
    (hzero : ∀ r c, 0 ≤ r → r < 17 → 0 ≤ c → c < 25 → m0 r c = 0)
    (hmaze : createMaze 17 25 rnd startCol startRow fuel
      { m := m0, currCol := startCol, currRow := startRow, draws := draws, errs := 0 } =
        Except.ok out)
    (hopen : createOpenings 17 25 rnd fuelOpen out.m out.draws = Except.ok res) :
    ∃ a b, TwoOpenings 17 25 res.1 a b ∧ Joined 17 25 res.1 a b := by
  have hstart : IsCell 17 25 (startRow, startCol) := by unfold IsCell; simp; omega
  have hc : Carved 17 25 (startRow, startCol) 0 out :=
    createMaze_ok_carved (by norm_num) (by norm_num) hstart (zero_get_of_zero hzero) hmaze
  obtain ⟨a, b, htwo, hopp, hres⟩ :=
    openings_result (by norm_num) (by norm_num) (fun p hp => hc.ring_zero hp) hopen
  refine ⟨a, b, htwo, ?_⟩
  obtain ⟨hab, ha, hb, hna, hnb, _⟩ := htwo
  -- the entries next to the openings, inside the ring
  have inner : ∀ q, Inside 17 25 q → res.1.get q ≠ 0 → InGrid 17 25 q ∧ out.m.get q ≠ 0 := by
    intro q hq hne
    have hqa : q ≠ a := fun e => by
      have := ha.2; unfold Inside at hq; rw [e] at hq; omega
    have hqb : q ≠ b := fun e => by
      have := hb.2; unfold Inside at hq; rw [e] at hq; omega
    rw [hres, get_bump_ne _ hqb, get_bump_ne _ hqa] at hne
    unfold Inside at hq
    exact ⟨by unfold InGrid; omega, hne⟩
  have hm : ∀ p, out.m.get p ≠ 0 → res.1.get p ≠ 0 := by
    intro p hp
    rw [hres]
    have h1 := get_bump_le out.m a p
    have h2 := get_bump_le (out.m.bump a) b p
    by_cases hpa : p = a
    · rw [hpa, hc.ring_zero ha] at hp; exact absurd rfl hp
    · by_cases hpb : p = b
      · rw [hpb, hc.ring_zero hb] at hp; exact absurd rfl hp
      · rw [get_bump_ne _ hpb, get_bump_ne _ hpa]; exact hp
  have link : ∀ a2 b2 : Int × Int, Adjacent a a2 → Adjacent b2 b → Inside 17 25 a2 →
      Inside 17 25 b2 → res.1.get a2 ≠ 0 → res.1.get b2 ≠ 0 → Joined 17 25 res.1 a b := by
    intro a2 b2 adj1 adj2 hi1 hi2 hn1 hn2
    have k1 := inner a2 hi1 hn1
    have k2 := inner b2 hi2 hn2
    have mid : Joined 17 25 res.1 a2 b2 :=
      joined_mono hm (hc.joined hstart k1.1 k1.2 k2.1 k2.2)
    exact Relation.ReflTransGen.head ⟨adj1, ha.1, k1.1, hna, hn1⟩
      (Relation.ReflTransGen.tail mid ⟨adj2, k2.1, hb.1, hn2, hnb⟩)
  rcases hopp with ⟨h1, h2, h3, h4, h5, h6, h7, h8⟩ | ⟨h1, h2, h3, h4, h5, h6, h7, h8⟩
  · exact link (a.1, 25 - 2) (b.1, 1) (by unfold Adjacent; simp; omega)
      (by unfold Adjacent; simp; omega) (by unfold Inside; simp; omega)
      (by unfold Inside; simp; omega) h7 h8
  · exact link (1, a.2) (17 - 2, b.2) (by unfold Adjacent; simp; omega)
      (by unfold Adjacent; simp; omega) (by unfold Inside; simp; omega)
      (by unfold Inside; simp; omega) h7 h8

/-- The hypotheses of C3 hold for the start `(1, 1)`, the all-zero array and the
stream of draws that is constantly 0: `createMaze` returns, and `createOpenings`
returns after one draw in each of its loops. -/
theorem C3_witness :
    ∃ out res, createMaze 17 25 (fun _ => 0) 1 1 191
        { m := zeroGrid, currCol := 1, currRow := 1, draws := 0, errs := 0 } = Except.ok out ∧
      createOpenings 17 25 (fun _ => 0) 1 out.m out.draws = Except.ok res ∧
      ∃ a b, TwoOpenings 17 25 res.1 a b ∧ Joined 17 25 res.1 a b := by
  have hstart : IsCell 17 25 (1, 1) := by decide
  have hz : ∀ p, InGrid 17 25 p → zeroGrid.get p = 0 := fun _ _ => rfl
  obtain ⟨out, hout, hc⟩ := createMaze_carved (by norm_num) (by norm_num) (fun _ => 0) hstart hz 0 0
  rw [card_cellSet_17_25] at hout
  have h1 : out.m 1 (25 - 2) ≠ 0 := (hc.cells (y := (1, 23)) (by decide)).1
  have h2 : out.m 1 1 ≠ 0 := (hc.cells (y := (1, 1)) (by decide)).1
  have hopen := createOpenings_zero_draws (R := 17) (C := 25) (by norm_num) (by norm_num)
    out.m out.draws h1 h2
  exact ⟨out, _, hout, hopen,
    C3_openings_joined 1 1 (fun _ => 0) zeroGrid 0 191 1 out _ (by decide) (by decide)
      (fun _ _ _ _ _ _ => rfl) hout hopen⟩

/-- C4: on an array of at least 3 rows and 3 columns (the program has 17 and 25)
whose border entries are all 0, whenever `createOpenings` returns, exactly two border
entries are not 0: one in the east column and one in the west column, or one in the
north row and one in the south row; neither is a corner, and the entry next to each
towards the interior is not 0. -/
theorem C4_createOpenings_two_opposite_openings (ROW_NUM COL_NUM : Int) (rnd : Nat → Nat)
    (fuel : Nat) (m : Grid) (draws : Nat) (res : Grid × Nat)
    (hR : 3 ≤ ROW_NUM) (hC : 3 ≤ COL_NUM)
    (hborder : ∀ p, IsBorder ROW_NUM COL_NUM p → m p.1 p.2 = 0)
    (hopen : createOpenings ROW_NUM COL_NUM rnd fuel m draws = Except.ok res) :
    ∃ a b, TwoOpenings ROW_NUM COL_NUM res.1 a b ∧ OpposingOpenings ROW_NUM COL_NUM res.1 a b := by
  obtain ⟨a, b, h1, h2, _⟩ := openings_result hR hC hborder hopen
  exact ⟨a, b, h1, h2⟩

/-- The hypotheses of C4 hold for 17 rows, 25 columns, the array `rowOneOpen` and
the stream of draws that is constantly 0. -/
theorem C4_witness :
    createOpenings 17 25 (fun _ => 0) 1 rowOneOpen 0 =
        Except.ok ((rowOneOpen.incr 1 24).incr 1 0, 3) ∧
      ∃ a b, TwoOpenings 17 25 ((rowOneOpen.incr 1 24).incr 1 0) a b ∧
        OpposingOpenings 17 25 ((rowOneOpen.incr 1 24).incr 1 0) a b :=
  ⟨rfl, C4_createOpenings_two_opposite_openings 17 25 (fun _ => 0) 1 rowOneOpen 0
    ((rowOneOpen.incr 1 24).incr 1 0, 3) (by decide) (by decide)
    (by
      intro p hp
      unfold IsBorder InGrid at hp
      unfold rowOneOpen
      rw [if_neg]
      omega)
    rfl⟩

/-- C5: with `ROW_NUM = 17` and `COL_NUM = 25`, from every odd/odd interior start and
for every stream of draws, the recursion of `createMaze` on an array that is 0 inside
the grid reaches its base case (the start cell holds more than 1) after at most
`2 * 96 = 192` moves: `moves + 1` calls are enough. -/
theorem C5_createMaze_terminates_within_192_moves (startRow startCol : Int) (rnd : Nat → Nat)
    (m0 : Grid) (draws : Nat)
    (hrow : startRow % 2 = 1 ∧ 1 ≤ startRow ∧ startRow ≤ 15)
    (hcol : startCol % 2 = 1 ∧ 1 ≤ startCol ∧ startCol ≤ 23)
    (hzero : ∀ r c, 0 ≤ r → r < 17 → 0 ≤ c → c < 25 → m0 r c = 0) :
    ∃ moves out, moves ≤ 2 * 96 ∧
      createMaze 17 25 rnd startCol startRow (moves + 1)
        { m := m0, currCol := startCol, currRow := startRow, draws := draws, errs := 0 } =
          Except.ok out ∧
      out.m startRow startCol > 1 := by
  have hstart : IsCell 17 25 (startRow, startCol) := by unfold IsCell; simp; omega
  obtain ⟨out, hout, hc⟩ := createMaze_carved (by norm_num) (by norm_num) rnd hstart
    (zero_get_of_zero hzero) draws 0
  rw [card_cellSet_17_25] at hout
  refine ⟨190, out, by norm_num, hout, ?_⟩
  have := hc.start_val
  show out.m.get (startRow, startCol) > 1
  omega

/-- The hypotheses of C5 hold for the start `(7, 5)`, the all-zero array and the
stream of draws `n * 7919 + 13`. -/
theorem C5_witness :
    ∃ moves out, moves ≤ 2 * 96 ∧
      createMaze 17 25 (fun n => n * 7919 + 13) 5 7 (moves + 1)
        { m := zeroGrid, currCol := 5, currRow := 7, draws := 0, errs := 0 } = Except.ok out ∧
      out.m 7 5 > 1 :=
  C5_createMaze_terminates_within_192_moves 7 5 (fun n => n * 7919 + 13) zeroGrid 0
    (by decide) (by decide) (fun _ _ _ _ _ _ => rfl)

/-- C6 fails as stated. On `tieGrid` east and north share the smallest positive value
and `findBacktrackPath` returns north (1), not east; on `northTwoGrid` the only
positive slot is north and `findBacktrackPath` returns east (0), whose slot is 0. -/
theorem C6_counterexample :
    findBacktrackPath tieGrid 3 3 = 1 ∧ ¬ LeastPositiveFirst tieGrid 3 3 (findBacktrackPath tieGrid 3 3) ∧
    findBacktrackPath northTwoGrid 3 3 = 0 ∧
      ¬ LeastPositiveFirst northTwoGrid 3 3 (findBacktrackPath northTwoGrid 3 3) := by
  have e1 : findBacktrackPath tieGrid 3 3 = 1 := by decide
  have e2 : findBacktrackPath northTwoGrid 3 3 = 0 := by decide
  refine ⟨e1, ?_, e2, ?_⟩
  · rw [e1]
    rintro ⟨_, _, _, h⟩
    have := h 0 (by decide) (by decide)
    omega
  · rw [e2]
    rintro ⟨_, h, _⟩
    exact absurd h (by decide)

/-- C6, amended: when the four neighbouring wall slots are non-negative and one of
them holds 1, `findBacktrackPath` returns a direction whose slot holds the smallest
strictly positive value among the four (which is 1), and among the directions sharing
that value it returns the last in the order east, north, west, south. -/
theorem C6_findBacktrackPath_least_positive_last (m : Grid) (currCol currRow : Int)
    (hnn : ∀ d, IsDir d → 0 ≤ slotValue m currCol currRow d)
    (hone : ∃ d, IsDir d ∧ slotValue m currCol currRow d = 1) :
    LeastPositiveLast m currCol currRow (findBacktrackPath m currCol currRow) ∧
      slotValue m currCol currRow (findBacktrackPath m currCol currRow) = 1 := by
  have a0 := hnn 0 (by decide)
  have a1 := hnn 1 (by decide)
  have a2 := hnn 2 (by decide)
  have a3 := hnn 3 (by decide)
  have s0 : slotValue m currCol currRow 0 = m currRow (currCol + 1) := by
    simp [slotValue, Grid.get, wall, dRow, dCol]
  have s1 : slotValue m currCol currRow 1 = m (currRow - 1) currCol := by
    simp [slotValue, Grid.get, wall, dRow, dCol, sub_eq_add_neg]
  have s2 : slotValue m currCol currRow 2 = m currRow (currCol - 1) := by
    simp [slotValue, Grid.get, wall, dRow, dCol, sub_eq_add_neg]
  have s3 : slotValue m currCol currRow 3 = m (currRow + 1) currCol := by
    simp [slotValue, Grid.get, wall, dRow, dCol]
  have hf := findBacktrackPath_nonneg m currCol currRow (s1 ▸ a1) (s2 ▸ a2) (s3 ▸ a3)
  rw [← s1, ← s2, ← s3] at hf
  have key : ∀ d, IsDir d → slotValue m currCol currRow d = 1 →
      (∀ e, IsDir e → slotValue m currCol currRow e = 1 → e ≤ d) →
      LeastPositiveLast m currCol currRow d ∧ slotValue m currCol currRow d = 1 := by
    intro d hd hv hlast
    refine ⟨⟨hd, by omega, ?_, ?_⟩, hv⟩
    · intro e he hpos; omega
    · intro e he hev; exact hlast e he (by omega)
  obtain ⟨d0, hd0, hv0⟩ := hone
  by_cases h3 : slotValue m currCol currRow 3 = 1
  · rw [hf, if_pos h3]
    refine key 3 (by decide) h3 ?_
    intro e he _
    rcases he with he | he | he | he <;> omega
  · by_cases h2 : slotValue m currCol currRow 2 = 1
    · rw [hf, if_neg h3, if_pos h2]
      refine key 2 (by decide) h2 ?_
      intro e he hev
      rcases he with he | he | he | he <;> subst he <;> omega
    · by_cases h1 : slotValue m currCol currRow 1 = 1
      · rw [hf, if_neg h3, if_neg h2, if_pos h1]
        refine key 1 (by decide) h1 ?_
        intro e he hev
        rcases he with he | he | he | he <;> subst he <;> omega
      · rw [hf, if_neg h3, if_neg h2, if_neg h1]
        have h0 : slotValue m currCol currRow 0 = 1 := by
          rcases hd0 with he | he | he | he <;> subst he <;> first | exact hv0 | omega
        refine key 0 (by decide) h0 ?_
        intro e he hev
        rcases he with he | he | he | he <;> subst he <;> omega

/-- The hypotheses of the amended C6 hold on `tieGrid` at `(3, 3)`, where east and
north both hold 1 and the function returns north. -/
theorem C6_witness :
    (∀ d, IsDir d → 0 ≤ slotValue tieGrid 3 3 d) ∧
    (∃ d, IsDir d ∧ slotValue tieGrid 3 3 d = 1) ∧
    LeastPositiveLast tieGrid 3 3 (findBacktrackPath tieGrid 3 3) ∧
      slotValue tieGrid 3 3 (findBacktrackPath tieGrid 3 3) = 1 :=
  have hnn : ∀ d, IsDir d → 0 ≤ slotValue tieGrid 3 3 d := by
    intro d hd
    rcases hd with hd | hd | hd | hd <;> subst hd <;> decide
  have hone : ∃ d, IsDir d ∧ slotValue tieGrid 3 3 d = 1 := ⟨0, by decide, by decide⟩
  ⟨hnn, hone, C6_findBacktrackPath_least_positive_last tieGrid 3 3 hnn hone⟩

/-- C7: at a position with odd row in `[1, ROW_NUM-2]` and odd column in
`[1, COL_NUM-2]`, `validNewPaths` returns exactly the directions `d` of `0, 1, 2, 3`,
in increasing order and without repetition, for which the wall slot one step away and
the cell two steps away are both 0 and the cell two steps away has its row in
`[1, ROW_NUM-2]` and its column in `[1, COL_NUM-2]`. -/
theorem C7_validNewPaths_exact (ROW_NUM COL_NUM : Int) (m : Grid) (currCol currRow : Int)
    (hrow : currRow % 2 = 1 ∧ 1 ≤ currRow ∧ currRow ≤ ROW_NUM - 2)
    (hcol : currCol % 2 = 1 ∧ 1 ≤ currCol ∧ currCol ≤ COL_NUM - 2) :
    validNewPaths ROW_NUM COL_NUM m currCol currRow =
      [0, 1, 2, 3].filter (fun d => decide (
        m (currRow + dRow d) (currCol + dCol d) = 0 ∧
        m (currRow + 2 * dRow d) (currCol + 2 * dCol d) = 0 ∧
        1 ≤ currRow + 2 * dRow d ∧ currRow + 2 * dRow d ≤ ROW_NUM - 2 ∧
        1 ≤ currCol + 2 * dCol d ∧ currCol + 2 * dCol d ≤ COL_NUM - 2)) :=
  validNewPaths_eq_filter ROW_NUM COL_NUM m currCol currRow hrow.2 hcol.2

/-- The hypotheses of C7 hold at position `(1, 1)` of the all-zero 17 by 25 array,
where the list is east, south. -/
theorem C7_witness :
    validNewPaths 17 25 zeroGrid 1 1 = [0, 3] ∧
    validNewPaths 17 25 zeroGrid 1 1 =
      [0, 1, 2, 3].filter (fun d => decide (
        zeroGrid (1 + dRow d) (1 + dCol d) = 0 ∧
        zeroGrid (1 + 2 * dRow d) (1 + 2 * dCol d) = 0 ∧
        1 ≤ 1 + 2 * dRow d ∧ 1 + 2 * dRow d ≤ 17 - 2 ∧
        1 ≤ 1 + 2 * dCol d ∧ 1 + 2 * dCol d ≤ 25 - 2)) :=
  ⟨by decide, C7_validNewPaths_exact 17 25 zeroGrid 1 1 (by decide) (by decide)⟩

/-- C8: with at least 3 rows and 3 columns (the program has 17 and 25), whenever the
two rejection loops of `main` end, `startCol` is odd with `1 ≤ startCol ≤ COL_NUM-2`
and `startRow` is odd with `1 ≤ startRow ≤ ROW_NUM-2`: the start is not on the outer
ring of the grid. -/
theorem C8_start_position_odd_interior (ROW_NUM COL_NUM : Int) (rnd : Nat → Nat)
    (fuelCol fuelRow draws1 draws2 : Nat) (startCol startRow : Int)
    (hR : 3 ≤ ROW_NUM) (hC : 3 ≤ COL_NUM)
    (hcol : pickStart rnd (COL_NUM - 2) fuelCol 0 = Except.ok (startCol, draws1))
    (hrow : pickStart rnd (ROW_NUM - 2) fuelRow draws1 = Except.ok (startRow, draws2)) :
    (startCol % 2 = 1 ∧ 1 ≤ startCol ∧ startCol ≤ COL_NUM - 2) ∧
    (startRow % 2 = 1 ∧ 1 ≤ startRow ∧ startRow ≤ ROW_NUM - 2) ∧
    ¬ IsBorder ROW_NUM COL_NUM (startRow, startCol) := by
  have h1 := pickStart_spec rnd (COL_NUM - 2) (by omega) _ _ _ _ hcol
  have h2 := pickStart_spec rnd (ROW_NUM - 2) (by omega) _ _ _ _ hrow
  refine ⟨h1, h2, ?_⟩
  unfold IsBorder
  simp only
  omega

/-- The hypotheses of C8 hold for 17 rows, 25 columns and the stream of draws
`1, 2, 3, ...`: the column loop rejects 2 and takes 3, the row loop rejects 4 and
takes 5. -/
theorem C8_witness :
    pickStart (fun n => n + 1) (25 - 2) 2 0 = Except.ok (3, 2) ∧
    pickStart (fun n => n + 1) (17 - 2) 2 2 = Except.ok (5, 4) ∧
    ((3 : Int) % 2 = 1 ∧ (1 : Int) ≤ 3 ∧ (3 : Int) ≤ 25 - 2) ∧
    ((5 : Int) % 2 = 1 ∧ (1 : Int) ≤ 5 ∧ (5 : Int) ≤ 17 - 2) ∧
    ¬ IsBorder 17 25 (5, 3) :=
  ⟨rfl, rfl,
    C8_start_position_odd_interior 17 25 (fun n => n + 1) 2 2 2 4 3 5 (by decide) (by decide)
      rfl rfl⟩

/-- C9: with 5 rows and 5 columns, whenever `createMaze` from an odd/odd interior
start on an array that is 0 inside the grid has returned and `createOpenings` then
returns, the four cells `(1,1)`, `(1,3)`, `(3,1)`, `(3,3)` are not 0, exactly three of
the four wall slots `(1,2)`, `(2,1)`, `(2,3)`, `(3,2)` are not 0, and exactly two
border entries are not 0, on opposite sides of the grid. -/
theorem C9_five_by_five_maze (startRow startCol : Int) (rnd : Nat → Nat) (m0 : Grid)
    (draws fuel fuelOpen : Nat) (out : Carver) (res : Grid × Nat)
    (hrow : startRow % 2 = 1 ∧ 1 ≤ startRow ∧ startRow ≤ 3)
    (hcol : startCol % 2 = 1 ∧ 1 ≤ startCol ∧ startCol ≤ 3)
    (hzero : ∀ r c, 0 ≤ r → r < 5 → 0 ≤ c → c < 5 → m0 r c = 0)
    (hmaze : createMaze 5 5 rnd startCol startRow fuel
      { m := m0, currCol := startCol, currRow := startRow, draws := draws, errs := 0 } =
        Except.ok out)
    (hopen : createOpenings 5 5 rnd fuelOpen out.m out.draws = Except.ok res) :
    (res.1 1 1 ≠ 0 ∧ res.1 1 3 ≠ 0 ∧ res.1 3 1 ≠ 0 ∧ res.1 3 3 ≠ 0) ∧
    (({(1, 2), (2, 1), (2, 3), (3, 2)} : Finset (Int × Int)).filter
      (fun p => res.1 p.1 p.2 ≠ 0)).card = 3 ∧
    ∃ a b, TwoOpenings 5 5 res.1 a b ∧ OpposingOpenings 5 5 res.1 a b := by
  have hstart : IsCell 5 5 (startRow, startCol) := by unfold IsCell; simp; omega
  have hc : Carved 5 5 (startRow, startCol) 0 out :=
    createMaze_ok_carved (by norm_num) (by norm_num) hstart (zero_get_of_zero hzero) hmaze
  obtain ⟨a, b, htwo, hopp, hres⟩ :=
    openings_result (by norm_num) (by norm_num) (fun p hp => hc.ring_zero hp) hopen
  have same : ∀ q, Inside 5 5 q → res.1.get q = out.m.get q := by
    intro q hq
    have hqa : q ≠ a := fun e => by
      have := htwo.2.1.2; unfold Inside at hq; rw [e] at hq; omega
    have hqb : q ≠ b := fun e => by
      have := htwo.2.2.1.2; unfold Inside at hq; rw [e] at hq; omega
    rw [hres, get_bump_ne _ hqb, get_bump_ne _ hqa]
  have cell : ∀ q, IsCell 5 5 q → res.1.get q ≠ 0 := by
    intro q hq
    rw [same q (by unfold IsCell at hq; unfold Inside; omega)]
    exact (hc.cells hq).1
  refine ⟨⟨cell (1, 1) (by decide), cell (1, 3) (by decide), cell (3, 1) (by decide),
    cell (3, 3) (by decide)⟩, ?_, a, b, htwo, hopp⟩
  have hcount := hc.walls_card
  rw [card_cellSet_5_5] at hcount
  have e : ({(1, 2), (2, 1), (2, 3), (3, 2)} : Finset (Int × Int)).filter
      (fun p => res.1 p.1 p.2 ≠ 0) =
      (gridSet 5 5).filter (fun p => IsWallSlot p ∧ out.m.get p ≠ 0) := by
    ext p
    obtain ⟨p1, p2⟩ := p
    simp only [Finset.mem_filter, Finset.mem_insert, Finset.mem_singleton, mem_gridSet,
      Prod.mk.injEq]
    constructor
    · rintro ⟨hp, hne⟩
      have hin : Inside 5 5 (p1, p2) := by unfold Inside; simp only; omega
      have := same (p1, p2) hin
      refine ⟨by unfold InGrid; simp only; omega, by unfold IsWallSlot; simp only; omega, ?_⟩
      rw [← this]; exact hne
    · rintro ⟨hp, hw, hne⟩
      have hin := hc.open_inside hp hne
      have := same (p1, p2) hin
      refine ⟨?_, ?_⟩
      · unfold Inside at hin; unfold IsWallSlot at hw; simp only at hin hw; omega
      · show res.1.get (p1, p2) ≠ 0
        rw [this]; exact hne
  rw [e]
  omega

/-- The hypotheses of C9 hold for the start `(1, 1)`, the all-zero array and the
stream of draws that is constantly 0. -/
theorem C9_witness :
    ∃ out res,
      createMaze 5 5 (fun _ => 0) 1 1 7
        { m := zeroGrid, currCol := 1, currRow := 1, draws := 0, errs := 0 } = Except.ok out ∧
      createOpenings 5 5 (fun _ => 0) 1 out.m out.draws = Except.ok res ∧
      (res.1 1 1 ≠ 0 ∧ res.1 1 3 ≠ 0 ∧ res.1 3 1 ≠ 0 ∧ res.1 3 3 ≠ 0) ∧
      (({(1, 2), (2, 1), (2, 3), (3, 2)} : Finset (Int × Int)).filter
        (fun p => res.1 p.1 p.2 ≠ 0)).card = 3 ∧
      ∃ a b, TwoOpenings 5 5 res.1 a b ∧ OpposingOpenings 5 5 res.1 a b :=
  ⟨_, _, rfl, rfl,
    C9_five_by_five_maze 1 1 (fun _ => 0) zeroGrid 0 7 1 _ _ (by decide) (by decide)
      (fun _ _ _ _ _ _ => rfl) rfl rfl⟩

/-- C10 fails as stated for an even number of columns: with 5 rows and 6 columns,
start `(1, 1)` and every draw 0, `createMaze` returns an array in which column
`cols - 2 = 4` is 0 at every index of `[1, rows - 2] = [1, 3]`, so the loop of
`createOpenings` on that column never ends. -/
theorem C10_counterexample :
    ∃ out, createMaze 5 6 (fun _ => 0) 1 1 7
        { m := zeroGrid, currCol := 1, currRow := 1, draws := 0, errs := 0 } = Except.ok out ∧
      out.m 1 (6 - 2) = 0 ∧ out.m 2 (6 - 2) = 0 ∧ out.m 3 (6 - 2) = 0 :=
  ⟨_, rfl, rfl, rfl, rfl⟩

/-- C10, amended: for odd `rows ≥ 5` and odd `cols ≥ 5`, from every odd/odd interior
start and for every stream of draws, `createMaze` on an array that is 0 inside the
grid returns, and in the array it returns each of the four lines that `createOpenings`
tests (column `cols-2`, column 1, row 1, row `rows-2`) holds an entry that is not 0 at
an index of `[1, dimension-2]` that some draw selects. -/
theorem C10_opening_lines_have_open_entry (ROW_NUM COL_NUM startRow startCol : Int)
    (rnd : Nat → Nat) (m0 : Grid) (draws : Nat)
    (hR : 5 ≤ ROW_NUM ∧ ROW_NUM % 2 = 1) (hC : 5 ≤ COL_NUM ∧ COL_NUM % 2 = 1)
    (hrow : startRow % 2 = 1 ∧ 1 ≤ startRow ∧ startRow ≤ ROW_NUM - 2)
    (hcol : startCol % 2 = 1 ∧ 1 ≤ startCol ∧ startCol ≤ COL_NUM - 2)
    (hzero : ∀ r c, 0 ≤ r → r < ROW_NUM → 0 ≤ c → c < COL_NUM → m0 r c = 0) :
    ∃ fuel out, createMaze ROW_NUM COL_NUM rnd startCol startRow fuel
        { m := m0, currCol := startCol, currRow := startRow, draws := draws, errs := 0 } =
          Except.ok out ∧
      (∃ v, 1 ≤ drawIndex v (ROW_NUM - 2) ∧ drawIndex v (ROW_NUM - 2) ≤ ROW_NUM - 2 ∧
        out.m (drawIndex v (ROW_NUM - 2)) (COL_NUM - 2) ≠ 0) ∧
      (∃ v, 1 ≤ drawIndex v (ROW_NUM - 2) ∧ drawIndex v (ROW_NUM - 2) ≤ ROW_NUM - 2 ∧
        out.m (drawIndex v (ROW_NUM - 2)) 1 ≠ 0) ∧
      (∃ v, 1 ≤ drawIndex v (COL_NUM - 2) ∧ drawIndex v (COL_NUM - 2) ≤ COL_NUM - 2 ∧
        out.m 1 (drawIndex v (COL_NUM - 2)) ≠ 0) ∧
      (∃ v, 1 ≤ drawIndex v (COL_NUM - 2) ∧ drawIndex v (COL_NUM - 2) ≤ COL_NUM - 2 ∧
        out.m (ROW_NUM - 2) (drawIndex v (COL_NUM - 2)) ≠ 0) := by
  have hstart : IsCell ROW_NUM COL_NUM (startRow, startCol) := by unfold IsCell; simp; omega
  obtain ⟨out, hout, hc⟩ := createMaze_carved hR.1 hC.1 rnd hstart
    (zero_get_of_zero hzero) draws 0
  refine ⟨_, out, hout, ?_⟩
  have e1 : drawIndex 0 (ROW_NUM - 2) = 1 := by simp [drawIndex]
  have e2 : drawIndex 0 (COL_NUM - 2) = 1 := by simp [drawIndex]
  refine ⟨⟨0, ?_, ?_, ?_⟩, ⟨0, ?_, ?_, ?_⟩, ⟨0, ?_, ?_, ?_⟩, ⟨0, ?_, ?_, ?_⟩⟩
  · rw [e1]
  · rw [e1]; omega
  · rw [e1]
    exact (hc.cells (y := (1, COL_NUM - 2)) (by unfold IsCell; simp; omega)).1
  · rw [e1]
  · rw [e1]; omega
  · rw [e1]
    exact (hc.cells (y := (1, 1)) (by unfold IsCell; simp; omega)).1
  · rw [e2]
  · rw [e2]; omega
  · rw [e2]
    exact (hc.cells (y := (1, 1)) (by unfold IsCell; simp; omega)).1
  · rw [e2]
  · rw [e2]; omega
  · rw [e2]
    exact (hc.cells (y := (ROW_NUM - 2, 1)) (by unfold IsCell; simp; omega)).1

/-- The hypotheses of the amended C10 hold for 5 rows and 5 columns, the start
`(3, 3)`, the all-zero array and the stream of draws that is constantly 1. -/
theorem C10_witness :
    ∃ fuel out, createMaze 5 5 (fun _ => 1) 3 3 fuel
        { m := zeroGrid, currCol := 3, currRow := 3, draws := 0, errs := 0 } = Except.ok out ∧
      (∃ v, 1 ≤ drawIndex v (5 - 2) ∧ drawIndex v (5 - 2) ≤ 5 - 2 ∧
        out.m (drawIndex v (5 - 2)) (5 - 2) ≠ 0) ∧
      (∃ v, 1 ≤ drawIndex v (5 - 2) ∧ drawIndex v (5 - 2) ≤ 5 - 2 ∧
        out.m (drawIndex v (5 - 2)) 1 ≠ 0) ∧
      (∃ v, 1 ≤ drawIndex v (5 - 2) ∧ drawIndex v (5 - 2) ≤ 5 - 2 ∧
        out.m 1 (drawIndex v (5 - 2)) ≠ 0) ∧
      (∃ v, 1 ≤ drawIndex v (5 - 2) ∧ drawIndex v (5 - 2) ≤ 5 - 2 ∧
        out.m (5 - 2) (drawIndex v (5 - 2)) ≠ 0) :=
  C10_opening_lines_have_open_entry 5 5 3 3 (fun _ => 1) zeroGrid 0 (by decide) (by decide)
    (by decide) (by decide) (fun _ _ _ _ _ _ => rfl)

/-! ## No error branch and no fault, from any state -/

/-- Whatever the array and the position, `validNewPaths` holds only 0, 1, 2, 3. -/
theorem validNewPaths_isDir (R C : Int) (m : Grid) (c r : Int) :
    ∀ d ∈ validNewPaths R C m c r, IsDir d := by
  intro d hd
  unfold validNewPaths at hd
  unfold IsDir
  simp only at hd
  split_ifs at hd <;> simp at hd <;> omega

/-- From any state `nextCall` computes the next state without a fault and without
printing a message. -/
theorem nextCall_ok (R C : Int) (rnd : Nat → Nat) (t : Carver) :
    ∃ s2, nextCall R C rnd t = Except.ok s2 ∧ s2.errs = t.errs := by
  unfold nextCall
  by_cases hv : validNewPaths R C t.m t.currCol t.currRow = []
  · have hback : backtrack t = moved t (findBacktrackPath t.m t.currCol t.currRow) :=
      backtrack_eq (findBacktrackPath_isDir _ _ _) rfl
    refine ⟨backtrack t, by simp [hv], ?_⟩
    rw [hback]; rfl
  · obtain ⟨d, _, _, hmk⟩ := makeNewPath_eq rnd t _ hv (validNewPaths_isDir R C t.m _ _)
    exact ⟨moved { t with draws := t.draws + 1 } d,
      by simp only [hv, ne_eq, not_false_eq_true, if_true]; exact hmk, rfl⟩

/-- From any state a run of `createMaze` prints no message, and it stops without a
result only when the fuel runs out. -/
theorem createMaze_safe (R C : Int) (rnd : Nat → Nat) (sc sr : Int) :
    ∀ (fuel : Nat) (s : Carver),
      (∀ out, createMaze R C rnd sc sr fuel s = Except.ok out → out.errs = s.errs) ∧
      (∀ e, createMaze R C rnd sc sr fuel s = Except.error e → e = Fault.fuel) := by
  intro fuel
  induction fuel with
  | zero =>
    intro s
    constructor
    · intro out h; simp [createMaze] at h
    · intro e h
      simp only [createMaze] at h
      exact (Except.error.inj h).symm
  | succ n ih =>
    intro s
    obtain ⟨s2, hnext, herr⟩ := nextCall_ok R C rnd { s with m := s.m.bump (s.currRow, s.currCol) }
    by_cases hbase : (s.m.bump (s.currRow, s.currCol)).get (sr, sc) > 1
    · rw [createMaze_succ, if_pos hbase]
      constructor
      · intro out h
        rw [← Except.ok.inj h]
      · intro e h
        exact absurd h (by simp)
    · rw [createMaze_next R C rnd sc sr n s s2 hbase hnext]
      have := ih s2
      constructor
      · intro out h
        rw [this.1 out h, herr]
      · exact this.2

/-- At every call of a run of `createMaze`, from any state, no message has been
printed since the first call. -/
theorem called_errs {R C : Int} {rnd : Nat → Nat} {sc sr : Int} {s0 s : Carver}
    (h : Called R C rnd sc sr s0 s) : s.errs = s0.errs := by
  induction h with
  | first => rfl
  | next hs hbase hnext ih =>
    rename_i s1 s2
    obtain ⟨s3, hn3, herr⟩ := nextCall_ok R C rnd { s1 with m := s1.m.bump (s1.currRow, s1.currCol) }
    have e : s3 = s2 := Except.ok.inj (hn3.symm.trans hnext)
    rw [← e, herr]
    exact ih

/-- C11: for every array and position `findBacktrackPath` returns an integer from 0
to 3, so `backtrack` never prints its message; on a non-empty list returned by
`validNewPaths` the index `rand() % paths.size()` lies within the list, the direction
there is from 0 to 3, and `makeNewPath` returns without a fault and without printing
its message; hence in every run of `createMaze`, from any state, no "shouldn't be
reached" message is printed at any call or by the time it returns, and the run stops
without a result only when the fuel of the model runs out. -/
theorem C11_no_error_branch_taken (ROW_NUM COL_NUM : Int) (rnd : Nat → Nat)
    (startCol startRow : Int) (m : Grid) (currCol currRow : Int) (fuel : Nat) (s : Carver) :
    (0 ≤ findBacktrackPath m currCol currRow ∧ findBacktrackPath m currCol currRow ≤ 3) ∧
    (backtrack s).errs = s.errs ∧
    (validNewPaths ROW_NUM COL_NUM m currCol currRow ≠ [] →
      rnd s.draws % (validNewPaths ROW_NUM COL_NUM m currCol currRow).length <
        (validNewPaths ROW_NUM COL_NUM m currCol currRow).length ∧
      ∃ d s2, (validNewPaths ROW_NUM COL_NUM m currCol currRow)[rnd s.draws %
          (validNewPaths ROW_NUM COL_NUM m currCol currRow).length]? = some d ∧
        0 ≤ d ∧ d ≤ 3 ∧
        makeNewPath rnd s (validNewPaths ROW_NUM COL_NUM m currCol currRow) = Except.ok s2 ∧
        s2.errs = s.errs) ∧
    (∀ out, createMaze ROW_NUM COL_NUM rnd startCol startRow fuel s = Except.ok out →
      out.errs = s.errs) ∧
    (∀ e, createMaze ROW_NUM COL_NUM rnd startCol startRow fuel s = Except.error e →
      e = Fault.fuel) ∧
    (∀ s2, Called ROW_NUM COL_NUM rnd startCol startRow s s2 → s2.errs = s.errs) := by
  refine ⟨?_, ?_, ?_, (createMaze_safe _ _ _ _ _ fuel s).1, (createMaze_safe _ _ _ _ _ fuel s).2,
    fun s2 h => called_errs h⟩
  · have := findBacktrackPath_isDir m currCol currRow
    unfold IsDir at this
    omega
  · rw [backtrack_eq (findBacktrackPath_isDir _ _ _) rfl]; rfl
  · intro hne
    obtain ⟨d, hd, hget, hmk⟩ := makeNewPath_eq rnd s _ hne
      (validNewPaths_isDir ROW_NUM COL_NUM m currCol currRow)
    have hdir := validNewPaths_isDir ROW_NUM COL_NUM m currCol currRow d hd
    unfold IsDir at hdir
    exact ⟨Nat.mod_lt _ (List.length_pos.2 hne), d, _, hget, by omega, by omega, hmk, rfl⟩

/-- C12 fails as stated: with 2 rows and 2 columns the run of `main` on the stream
of draws that is constantly 0 stops with a division by zero in the first
rejection loop, `rand() % (COL_NUM - 2)` with `COL_NUM - 2 = 0`; the program has no
check of the dimensions that could report them as invalid. -/
theorem C12_counterexample :
    pickStart (fun _ => 0) (2 - 2) 1 0 = Except.error Fault.divByZero ∧
    main 2 2 (fun _ => 0) 1 = Except.error Fault.divByZero :=
  ⟨rfl, rfl⟩

/-- C12, amended: with 2 rows and 2 columns, for every stream of draws the run of
`main` stops at its first draw with a division by zero in the sampling of the start
column; it returns no array and does not loop (any positive fuel gives the same
fault). -/
theorem C12_two_by_two_divides_by_zero (rnd : Nat → Nat) (fuel : Nat) :
    pickStart rnd (2 - 2) (fuel + 1) 0 = Except.error Fault.divByZero ∧
    main 2 2 rnd (fuel + 1) = Except.error Fault.divByZero :=
  ⟨rfl, rfl⟩

/-- C13: with `ROW_NUM = 17` and `COL_NUM = 25`, at every call of the run of `createMaze`
from an odd/odd interior start on an array that is 0 inside the grid, when the base
case is not reached and `validNewPaths` returns the empty list at the current
position, `findBacktrackPath` returns a direction from 0 to 3 whose wall slot next to
the current position holds 1, so it is strictly positive: `backtrack` does not step
through a wall that still stands. -/
theorem C13_backtrack_wall_is_positive (startRow startCol : Int) (rnd : Nat → Nat)
    (m0 : Grid) (draws : Nat) (s : Carver)
    (hrow : startRow % 2 = 1 ∧ 1 ≤ startRow ∧ startRow ≤ 15)
    (hcol : startCol % 2 = 1 ∧ 1 ≤ startCol ∧ startCol ≤ 23)
    (hzero : ∀ r c, 0 ≤ r → r < 17 → 0 ≤ c → c < 25 → m0 r c = 0)
    (hcall : Called 17 25 rnd startCol startRow
      { m := m0, currCol := startCol, currRow := startRow, draws := draws, errs := 0 } s)
    (hbase : ¬ (s.m.incr s.currRow s.currCol) startRow startCol > 1)
    (hempty : validNewPaths 17 25 (s.m.incr s.currRow s.currCol) s.currCol s.currRow = []) :
    (0 ≤ findBacktrackPath (s.m.incr s.currRow s.currCol) s.currCol s.currRow ∧
      findBacktrackPath (s.m.incr s.currRow s.currCol) s.currCol s.currRow ≤ 3) ∧
    slotValue (s.m.incr s.currRow s.currCol) s.currCol s.currRow
      (findBacktrackPath (s.m.incr s.currRow s.currCol) s.currCol s.currRow) = 1 ∧
    0 < slotValue (s.m.incr s.currRow s.currCol) s.currCol s.currRow
      (findBacktrackPath (s.m.incr s.currRow s.currCol) s.currCol s.currRow) := by
  have hstart : IsCell 17 25 (startRow, startCol) := by unfold IsCell; simp; omega
  obtain ⟨_, rest, visited, carved, hinv, hcase⟩ :=
    called_inv (by norm_num) (by norm_num) rnd hstart (zero_get_of_zero hzero) draws 0 hcall
  rcases hcase with ⟨_, hfresh⟩ | ⟨hval, _⟩
  · have h1 := backtrack_wall_one hinv hfresh hempty
    have hdir : IsDir (findBacktrackPath (s.m.incr s.currRow s.currCol) s.currCol s.currRow) :=
      h1.1
    unfold IsDir at hdir
    have hone : slotValue (s.m.incr s.currRow s.currCol) s.currCol s.currRow
        (findBacktrackPath (s.m.incr s.currRow s.currCol) s.currCol s.currRow) = 1 := h1.2
    exact ⟨⟨by omega, by omega⟩, hone, by rw [hone]; decide⟩
  · exfalso
    apply hbase
    show (s.m.bump (s.currRow, s.currCol)).get (startRow, startCol) > 1
    rw [hval]; decide

/-- The hypotheses of C13 hold in the run from the start `(3, 1)` on the all-zero
array with the draws `trapDraws`: the walk goes east, north and west and at its fourth
call stands at `(1, 1)` with no valid new path; `findBacktrackPath` returns east. -/
theorem C13_witness :
    ∃ s, Called 17 25 trapDraws 1 3 trapStart s ∧ (s.currRow, s.currCol) = (1, 1) ∧
      ¬ (s.m.incr s.currRow s.currCol) 3 1 > 1 ∧
      validNewPaths 17 25 (s.m.incr s.currRow s.currCol) s.currCol s.currRow = [] ∧
      findBacktrackPath (s.m.incr s.currRow s.currCol) s.currCol s.currRow = 0 ∧
      0 < slotValue (s.m.incr s.currRow s.currCol) s.currCol s.currRow
        (findBacktrackPath (s.m.incr s.currRow s.currCol) s.currCol s.currRow) := by
  have c0 : Called 17 25 trapDraws 1 3 trapStart trapStart := Called.first
  have c1 := Called.next c0 (by decide) rfl
  have c2 := Called.next c1 (by decide) rfl
  have c3 := Called.next c2 (by decide) rfl
  exact ⟨_, c3, rfl, by decide, by decide, by decide,
    (C13_backtrack_wall_is_positive 3 1 trapDraws zeroGrid 0 _ (by decide) (by decide)
      (fun _ _ _ _ _ _ => rfl) c3 (by decide) (by decide)).2.2⟩

/-- C14: with `ROW_NUM = 17` and `COL_NUM = 25`, at every call of the run of `createMaze`
from an odd/odd interior start on an array that is 0 inside the grid, the current
position has an odd row in `[1, 15]` and an odd column in `[1, 23]`. -/
theorem C14_position_is_a_cell (startRow startCol : Int) (rnd : Nat → Nat)
    (m0 : Grid) (draws : Nat) (s : Carver)
    (hrow : startRow % 2 = 1 ∧ 1 ≤ startRow ∧ startRow ≤ 15)
    (hcol : startCol % 2 = 1 ∧ 1 ≤ startCol ∧ startCol ≤ 23)
    (hzero : ∀ r c, 0 ≤ r → r < 17 → 0 ≤ c → c < 25 → m0 r c = 0)
    (hcall : Called 17 25 rnd startCol startRow
      { m := m0, currCol := startCol, currRow := startRow, draws := draws, errs := 0 } s) :
    (s.currRow % 2 = 1 ∧ 1 ≤ s.currRow ∧ s.currRow ≤ 17 - 2) ∧
    (s.currCol % 2 = 1 ∧ 1 ≤ s.currCol ∧ s.currCol ≤ 25 - 2) := by
  have hstart : IsCell 17 25 (startRow, startCol) := by unfold IsCell; simp; omega
  obtain ⟨_, rest, visited, carved, hinv, _⟩ :=
    called_inv (by norm_num) (by norm_num) rnd hstart (zero_get_of_zero hzero) draws 0 hcall
  have := (hinv.visited_cell _ (hinv.stack_sub _ (List.mem_cons_self _ _))).1
  unfold IsCell at this
  simp only at this
  omega

/-- The hypotheses of C14 hold at the fourth call of the run from the start `(3, 1)`
on the all-zero array with the draws `trapDraws`. -/
theorem C14_witness :
    ∃ s, Called 17 25 trapDraws 1 3 trapStart s ∧ s.draws = 3 ∧
      (s.currRow % 2 = 1 ∧ 1 ≤ s.currRow ∧ s.currRow ≤ 17 - 2) ∧
      (s.currCol % 2 = 1 ∧ 1 ≤ s.currCol ∧ s.currCol ≤ 25 - 2) := by
  have c0 : Called 17 25 trapDraws 1 3 trapStart trapStart := Called.first
  have c1 := Called.next c0 (by decide) rfl
  have c2 := Called.next c1 (by decide) rfl
  have c3 := Called.next c2 (by decide) rfl
  exact ⟨_, c3, rfl, C14_position_is_a_cell 3 1 trapDraws zeroGrid 0 _ (by decide) (by decide)
    (fun _ _ _ _ _ _ => rfl) c3⟩

/-- C15: with `ROW_NUM = 17` and `COL_NUM = 25`, from every odd/odd interior start and
for every stream of draws, in the array `createMaze` returns the start cell holds
exactly 2, every other odd/odd cell holds a value between 1 and 4, every wall slot
that is not 0 holds exactly 2, and no entry of the array exceeds 4. -/
theorem C15_returned_values_bounded (startRow startCol : Int) (rnd : Nat → Nat)
    (m0 : Grid) (draws : Nat)
    (hrow : startRow % 2 = 1 ∧ 1 ≤ startRow ∧ startRow ≤ 15)
    (hcol : startCol % 2 = 1 ∧ 1 ≤ startCol ∧ startCol ≤ 23)
    (hzero : ∀ r c, 0 ≤ r → r < 17 → 0 ≤ c → c < 25 → m0 r c = 0) :
    ∃ out, createMaze 17 25 rnd startCol startRow 191
        { m := m0, currCol := startCol, currRow := startRow, draws := draws, errs := 0 } =
          Except.ok out ∧
      out.m startRow startCol = 2 ∧
      (∀ r c, r % 2 = 1 → 1 ≤ r → r ≤ 15 → c % 2 = 1 → 1 ≤ c → c ≤ 23 →
        (r, c) ≠ (startRow, startCol) → 1 ≤ out.m r c ∧ out.m r c ≤ 4) ∧
      (∀ r c, 0 ≤ r → r < 17 → 0 ≤ c → c < 25 → r % 2 ≠ c % 2 → out.m r c ≠ 0 →
        out.m r c = 2) ∧
      (∀ r c, 0 ≤ r → r < 17 → 0 ≤ c → c < 25 → out.m r c ≤ 4) := by
  have hstart : IsCell 17 25 (startRow, startCol) := by unfold IsCell; simp; omega
  obtain ⟨out, hout, hc⟩ := createMaze_carved (by norm_num) (by norm_num) rnd hstart
    (zero_get_of_zero hzero) draws 0
  rw [card_cellSet_17_25] at hout
  refine ⟨out, hout, hc.start_val, ?_, ?_, ?_⟩
  · intro r c h1 h2 h3 h4 h5 h6 _
    exact hc.cell_bounds (y := (r, c)) (by unfold IsCell; simp; omega)
  · intro r c h1 h2 h3 h4 hw hne
    rcases hc.wall_zero_or_two (p := (r, c)) ⟨h1, h2, h3, h4⟩ hw with h | h
    · exact absurd h hne
    · exact h
  · intro r c h1 h2 h3 h4
    exact (hc.entry_bounds (p := (r, c)) ⟨h1, h2, h3, h4⟩).2

/-- The hypotheses of C15 hold for the start `(9, 13)`, the all-zero array and the
stream of draws `n * n`. -/
theorem C15_witness :
    ∃ out, createMaze 17 25 (fun n => n * n) 13 9 191
        { m := zeroGrid, currCol := 13, currRow := 9, draws := 0, errs := 0 } = Except.ok out ∧
      out.m 9 13 = 2 ∧
      (∀ r c, r % 2 = 1 → 1 ≤ r → r ≤ 15 → c % 2 = 1 → 1 ≤ c → c ≤ 23 →
        (r, c) ≠ ((9 : Int), (13 : Int)) → 1 ≤ out.m r c ∧ out.m r c ≤ 4) ∧
      (∀ r c, 0 ≤ r → r < 17 → 0 ≤ c → c < 25 → r % 2 ≠ c % 2 → out.m r c ≠ 0 →
        out.m r c = 2) ∧
      (∀ r c, 0 ≤ r → r < 17 → 0 ≤ c → c < 25 → out.m r c ≤ 4) :=
  C15_returned_values_bounded 9 13 (fun n => n * n) zeroGrid 0 (by decide) (by decide)
    (fun _ _ _ _ _ _ => rfl)

/-- C17: with `ROW_NUM = 17` and `COL_NUM = 25`, in the run of `createMaze` from an
odd/odd interior start on an array that is 0 inside the grid, every border entry
and every entry with both coordinates even is 0 at every call, both before and
after the increment at the current position, and in the array that is returned. -/
theorem C17_border_and_even_even_stay_zero (startRow startCol : Int) (rnd : Nat → Nat)
    (m0 : Grid) (draws : Nat) (s : Carver) (r c : Int)
    (hrow : startRow % 2 = 1 ∧ 1 ≤ startRow ∧ startRow ≤ 15)
    (hcol : startCol % 2 = 1 ∧ 1 ≤ startCol ∧ startCol ≤ 23)
    (hzero : ∀ r c, 0 ≤ r → r < 17 → 0 ≤ c → c < 25 → m0 r c = 0)
    (hcall : Called 17 25 rnd startCol startRow
      { m := m0, currCol := startCol, currRow := startRow, draws := draws, errs := 0 } s)
    (hr : 0 ≤ r ∧ r < 17) (hc : 0 ≤ c ∧ c < 25)
    (hrc : r = 0 ∨ r = 17 - 1 ∨ c = 0 ∨ c = 25 - 1 ∨ (r % 2 = 0 ∧ c % 2 = 0)) :
    s.m r c = 0 ∧ (s.m.incr s.currRow s.currCol) r c = 0 ∧
    ∀ fuel out, createMaze 17 25 rnd startCol startRow fuel
        { m := m0, currCol := startCol, currRow := startRow, draws := draws, errs := 0 } =
          Except.ok out → out.m r c = 0 := by
  have hstart : IsCell 17 25 (startRow, startCol) := by unfold IsCell; simp; omega
  have hin : InGrid 17 25 (r, c) := ⟨hr.1, hr.2, hc.1, hc.2⟩
  have zero : ∀ {m : Grid} {stack visited carved : List (Int × Int)},
      Inv 17 25 (startRow, startCol) m stack visited carved → m.get (r, c) = 0 := by
    intro m stack visited carved hinv
    by_contra hne
    have := hinv.nonzero_inside hin hne
    unfold Inside at this
    simp only at this
    omega
  obtain ⟨_, rest, visited, carved, hinv, _⟩ :=
    called_inv (by norm_num) (by norm_num) rnd hstart (zero_get_of_zero hzero) draws 0 hcall
  have hafter : (s.m.bump (s.currRow, s.currCol)).get (r, c) = 0 := zero hinv
  have hpos : IsCell 17 25 (s.currRow, s.currCol) :=
    (hinv.visited_cell _ (hinv.stack_sub _ (List.mem_cons_self _ _))).1
  have hne : (r, c) ≠ (s.currRow, s.currCol) := by
    intro e
    rw [← e] at hpos
    unfold IsCell at hpos
    simp only at hpos
    omega
  refine ⟨?_, hafter, ?_⟩
  · rw [get_bump_ne _ hne] at hafter
    exact hafter
  · intro fuel out hout
    obtain ⟨vis, car, hinv2, _, _, _⟩ :=
      createMaze_ok_carved (by norm_num) (by norm_num) hstart (zero_get_of_zero hzero) hout
    exact zero hinv2

/-- The hypotheses of C17 hold at the fourth call of the run from the start `(3, 1)`
on the all-zero array with the draws `trapDraws`, for the entry `(2, 2)`, which lies
between the four cells the walk has entered. -/
theorem C17_witness :
    ∃ s, Called 17 25 trapDraws 1 3 trapStart s ∧ s.draws = 3 ∧
      s.m 2 2 = 0 ∧ (s.m.incr s.currRow s.currCol) 2 2 = 0 ∧
      ∀ fuel out, createMaze 17 25 trapDraws 1 3 fuel trapStart = Except.ok out →
        out.m 2 2 = 0 := by
  have c0 : Called 17 25 trapDraws 1 3 trapStart trapStart := Called.first
  have c1 := Called.next c0 (by decide) rfl
  have c2 := Called.next c1 (by decide) rfl
  have c3 := Called.next c2 (by decide) rfl
  exact ⟨_, c3, rfl, C17_border_and_even_even_stay_zero 3 1 trapDraws zeroGrid 0 _ 2 2
    (by decide) (by decide) (fun _ _ _ _ _ _ => rfl) c3 (by decide) (by decide) (by decide)⟩

/-- C18: on an array with non-negative entries, at every position `findBacktrackPath`
returns the highest-numbered direction among 1 (north), 2 (west), 3 (south) whose wall
slot next to the position holds exactly 1, and 0 (east) when none of the three does,
whatever the east slot holds. -/
theorem C18_findBacktrackPath_last_slot_holding_one (m : Grid) (currCol currRow : Int)
    (hnn : ∀ r c, 0 ≤ m r c) :
    findBacktrackPath m currCol currRow =
      if m (currRow + 1) currCol = 1 then 3
      else if m currRow (currCol - 1) = 1 then 2
      else if m (currRow - 1) currCol = 1 then 1
      else 0 :=
  findBacktrackPath_nonneg m currCol currRow (hnn _ _) (hnn _ _) (hnn _ _)

/-- The hypothesis of C18 holds for `tieGrid`, where around `(3, 3)` east and north
hold 1: the function returns north. -/
theorem C18_witness :
    (∀ r c, 0 ≤ tieGrid r c) ∧
    findBacktrackPath tieGrid 3 3 = 1 ∧
    findBacktrackPath tieGrid 3 3 =
      if tieGrid (3 + 1) 3 = 1 then 3
      else if tieGrid 3 (3 - 1) = 1 then 2
      else if tieGrid (3 - 1) 3 = 1 then 1
      else 0 :=
  have hnn : ∀ r c, 0 ≤ tieGrid r c := by
    intro r c
    unfold tieGrid
    split <;> decide
  ⟨hnn, by decide, C18_findBacktrackPath_last_slot_holding_one tieGrid 3 3 hnn⟩

/-- C19: at a position with odd row in `[1, ROW_NUM-2]` and odd column in
`[1, COL_NUM-2]`, two arrays that agree at every index inside the grid give the same
list `validNewPaths`: what the reads at row -1 or `ROW_NUM`, column -1 or `COL_NUM`
yield does not change the result. -/
theorem C19_validNewPaths_ignores_outside_reads (ROW_NUM COL_NUM : Int) (m1 m2 : Grid)
    (currCol currRow : Int)
    (hrow : currRow % 2 = 1 ∧ 1 ≤ currRow ∧ currRow ≤ ROW_NUM - 2)
    (hcol : currCol % 2 = 1 ∧ 1 ≤ currCol ∧ currCol ≤ COL_NUM - 2)
    (hagree : ∀ r c, 0 ≤ r → r < ROW_NUM → 0 ≤ c → c < COL_NUM → m1 r c = m2 r c) :
    validNewPaths ROW_NUM COL_NUM m1 currCol currRow =
      validNewPaths ROW_NUM COL_NUM m2 currCol currRow := by
  have hx : IsCell ROW_NUM COL_NUM (currRow, currCol) := by unfold IsCell; simp; omega
  rw [validNewPaths_eq_filter ROW_NUM COL_NUM m1 currCol currRow hrow.2 hcol.2,
    validNewPaths_eq_filter ROW_NUM COL_NUM m2 currCol currRow hrow.2 hcol.2]
  apply List.filter_congr
  intro d hd
  have hdir : IsDir d := by
    simp only [List.mem_cons, List.mem_singleton, List.not_mem_nil, or_false] at hd
    exact hd
  have hw : m1.get (wall (currRow, currCol) d) = m2.get (wall (currRow, currCol) d) := by
    have := wall_inGrid hdir hx
    exact hagree _ _ this.1 this.2.1 this.2.2.1 this.2.2.2
  by_cases hin : Inside ROW_NUM COL_NUM (nbr (currRow, currCol) d)
  · have hn : m1.get (nbr (currRow, currCol) d) = m2.get (nbr (currRow, currCol) d) := by
      unfold Inside at hin
      exact hagree _ _ (by omega) (by omega) (by omega) (by omega)
    rw [hw, hn]
  · simp [hin]

/-- The hypotheses of C19 hold at position `(1, 1)` of 17 by 25 for the all-zero array
and the array `sevenOutside`, which differ at row -1 and column -1, where the tests
for north and west read. -/
theorem C19_witness :
    zeroGrid (1 - 2) 1 ≠ sevenOutside (1 - 2) 1 ∧
    validNewPaths 17 25 zeroGrid 1 1 = validNewPaths 17 25 sevenOutside 1 1 :=
  ⟨by decide, C19_validNewPaths_ignores_outside_reads 17 25 zeroGrid sevenOutside 1 1
    (by decide) (by decide)
    (by
      intro r c h1 h2 h3 h4
      unfold sevenOutside zeroGrid
      rw [if_pos ⟨h1, h2, h3, h4⟩])⟩

/-! ## `makeNewPath` on the machine's array -/

theorem wrapInt32_of_range {v : Int} (h1 : -2147483648 ≤ v) (h2 : v ≤ 2147483647) :
    wrapInt32 v = v := by
  unfold wrapInt32
  omega

/-- Inside the grid an address determines its row and column. -/
theorem Machine.address_inj {C r c r2 c2 : Int} (hc : 0 ≤ c ∧ c < C) (hc2 : 0 ≤ c2 ∧ c2 < C)
    (h : Machine.address C r c = Machine.address C r2 c2) : r = r2 ∧ c = c2 := by
  unfold Machine.address at h
  have hC : (0 : Int) < C := by omega
  have e1 : (r * C + c) % C = c := by
    rw [Int.add_comm, Int.add_mul_emod_self, Int.emod_eq_of_lt hc.1 hc.2]
  have e2 : (r2 * C + c2) % C = c2 := by
    rw [Int.add_comm, Int.add_mul_emod_self, Int.emod_eq_of_lt hc2.1 hc2.2]
  have hcc : c = c2 := by rw [← e1, ← e2, h]
  subst hcc
  have hmul : r * C = r2 * C := by omega
  exact ⟨Int.eq_of_mul_eq_mul_right (by omega) hmul, rfl⟩

/-- A move in direction `d` on the machine, when the wall slot lies inside the grid:
nothing wraps, and the state is the one with the wall slot incremented and the
position two steps on. -/
theorem Machine.makeNewPath_in_grid (ROW_NUM COL_NUM : Int) (rnd : Nat → Nat) (s : Machine.Carver)
    (paths : List Int) (d : Int)
    (hdim : ROW_NUM ≤ 2147483647 ∧ COL_NUM ≤ 2147483647)
    (hd : IsDir d)
    (hsel : paths[rnd s.draws % paths.length]? = some d)
    (hin : 0 ≤ s.currRow + dRow d ∧ s.currRow + dRow d < ROW_NUM ∧
      0 ≤ s.currCol + dCol d ∧ s.currCol + dCol d < COL_NUM) :
    Machine.makeNewPath COL_NUM rnd s paths =
      Except.ok { s with
        mem := Machine.incr COL_NUM s.mem (s.currRow + dRow d) (s.currCol + dCol d),
        currRow := s.currRow + 2 * dRow d,
        currCol := s.currCol + 2 * dCol d,
        draws := s.draws + 1 } := by
  have hne : paths.length ≠ 0 := by
    intro h0
    have : paths = [] := List.length_eq_zero.1 h0
    rw [this] at hsel
    simp at hsel
  unfold Machine.makeNewPath
  rw [if_neg hne]
  simp only [hsel]
  rcases hd with hd | hd | hd | hd <;> subst hd <;>
    simp only [dRow, dCol] at hin ⊢ <;> norm_num at hin ⊢
  · rw [wrapInt32_of_range (by omega) (by omega), wrapInt32_of_range (by omega) (by omega)]
    exact ⟨rfl, rfl⟩
  · rw [wrapInt32_of_range (by omega) (by omega), wrapInt32_of_range (by omega) (by omega)]
    simp [sub_eq_add_neg]
  · rw [wrapInt32_of_range (by omega) (by omega), wrapInt32_of_range (by omega) (by omega)]
    simp [sub_eq_add_neg]
  · rw [wrapInt32_of_range (by omega) (by omega), wrapInt32_of_range (by omega) (by omega)]
    exact ⟨rfl, rfl⟩

/-- Where the wall slot lies inside the grid and holds a 32-bit value below `INT_MAX`,
`makeNewPath` on the machine and `makeNewPath` on the array of the model agree: same
position, same draws and messages, and the same entry at every index of the grid. -/
theorem makeNewPath_machine_agrees (ROW_NUM COL_NUM : Int) (rnd : Nat → Nat)
    (s : Machine.Carver) (paths : List Int) (d : Int)
    (hdim : ROW_NUM ≤ 2147483647 ∧ COL_NUM ≤ 2147483647)
    (hdir : ∀ e ∈ paths, IsDir e)
    (hsel : paths[rnd s.draws % paths.length]? = some d)
    (hin : 0 ≤ s.currRow + dRow d ∧ s.currRow + dRow d < ROW_NUM ∧
      0 ≤ s.currCol + dCol d ∧ s.currCol + dCol d < COL_NUM)
    (hval : -2147483648 ≤ Machine.read COL_NUM s.mem (s.currRow + dRow d) (s.currCol + dCol d) ∧
      Machine.read COL_NUM s.mem (s.currRow + dRow d) (s.currCol + dCol d) < 2147483647) :
    ∃ s2 t, Machine.makeNewPath COL_NUM rnd s paths = Except.ok s2 ∧
      makeNewPath rnd
        { m := Machine.view COL_NUM s.mem, currCol := s.currCol, currRow := s.currRow,
          draws := s.draws, errs := s.errs } paths = Except.ok t ∧
      s2.currRow = t.currRow ∧ s2.currCol = t.currCol ∧ s2.draws = t.draws ∧
      s2.errs = t.errs ∧
      ∀ r c, 0 ≤ r → r < ROW_NUM → 0 ≤ c → c < COL_NUM →
        Machine.read COL_NUM s2.mem r c = t.m r c := by
  have hne : paths ≠ [] := by
    rintro rfl
    simp at hsel
  have hmem : d ∈ paths := by
    obtain ⟨h, hget⟩ := List.getElem?_eq_some.1 hsel
    rw [← hget]
    exact List.getElem_mem h
  have hmk := Machine.makeNewPath_in_grid ROW_NUM COL_NUM rnd s paths d hdim (hdir d hmem) hsel hin
  obtain ⟨d2, _, hsel2, hmk2⟩ := makeNewPath_eq rnd
    { m := Machine.view COL_NUM s.mem, currCol := s.currCol, currRow := s.currRow,
      draws := s.draws, errs := s.errs } paths hne hdir
  have hdd : d2 = d := by
    have : some d2 = some d := hsel2.symm.trans hsel
    exact Option.some.inj this
  subst hdd
  refine ⟨_, _, hmk, hmk2, rfl, rfl, rfl, rfl, ?_⟩
  intro r c _ _ hc1 hc2
  show Machine.incr COL_NUM s.mem (s.currRow + dRow d2) (s.currCol + dCol d2)
      (Machine.address COL_NUM r c) =
    (Machine.view COL_NUM s.mem).incr (s.currRow + dRow d2) (s.currCol + dCol d2) r c
  unfold Machine.incr Grid.incr Machine.view Machine.read
  by_cases hrc : r = s.currRow + dRow d2 ∧ c = s.currCol + dCol d2
  · rw [if_pos hrc, if_pos (by rw [hrc.1, hrc.2])]
    rw [hrc.1, hrc.2]
    exact wrapInt32_of_range (by unfold Machine.read at hval; omega)
      (by unfold Machine.read at hval; omega)
  · rw [if_neg hrc, if_neg]
    intro e
    exact hrc (Machine.address_inj ⟨hc1, hc2⟩ ⟨hin.2.2.1, hin.2.2.2⟩ e)

/-- C16 fails as stated, on the machine's array of 32-bit `int`s with 25 columns.
With `INT_MAX` in the wall slot `m[5][8]`, a move east from `(5, 7)` leaves
`-2147483648` there, not the old value plus 1. And a move east from `(5, 24)`
increments `m[5][25]`, which is the entry `m[6][0]` of the next row, an entry other
than the wall slot that does not stay unchanged. -/
theorem C16_counterexample :
    (∃ s2, Machine.makeNewPath 25 (fun _ => 0)
        { mem := fullSlotMemory, currCol := 7, currRow := 5, draws := 0, errs := 0 } [0] =
          Except.ok s2 ∧
      Machine.read 25 fullSlotMemory 5 (7 + 1) = 2147483647 ∧
      Machine.read 25 s2.mem 5 (7 + 1) = -2147483648 ∧
      Machine.read 25 s2.mem 5 (7 + 1) ≠ Machine.read 25 fullSlotMemory 5 (7 + 1) + 1) ∧
    (∃ s2, Machine.makeNewPath 25 (fun _ => 0)
        { mem := zeroMemory, currCol := 24, currRow := 5, draws := 0, errs := 0 } [0] =
          Except.ok s2 ∧
      ¬ ((6 : Int) = 5 ∧ (0 : Int) = 24 + 1) ∧
      Machine.read 25 zeroMemory 6 0 = 0 ∧
      Machine.read 25 s2.mem 6 0 = 1) :=
  ⟨⟨_, rfl, by decide, by decide, by decide⟩, ⟨_, rfl, by decide, by decide, by decide⟩⟩

/-- C16, amended: on the machine's array, for every position and every list of
directions from 0 to 3 with an element `d` at index `rand() % paths.size()` (every
non-empty list has one), when the wall slot one step from the position in direction
`d` lies inside the grid and holds a 32-bit value below `INT_MAX`, `makeNewPath` adds
1 to that wall slot, moves the position two steps in that direction and leaves every
other entry of the grid (and every other address) as it was; it makes one draw and
prints no message. -/
theorem C16_makeNewPath_effect_in_grid (ROW_NUM COL_NUM : Int) (rnd : Nat → Nat)
    (s : Machine.Carver) (paths : List Int) (d : Int)
    (hdim : ROW_NUM ≤ 2147483647 ∧ COL_NUM ≤ 2147483647)
    (hdir : ∀ e ∈ paths, 0 ≤ e ∧ e ≤ 3)
    (hsel : paths[rnd s.draws % paths.length]? = some d)
    (hin : 0 ≤ s.currRow + dRow d ∧ s.currRow + dRow d < ROW_NUM ∧
      0 ≤ s.currCol + dCol d ∧ s.currCol + dCol d < COL_NUM)
    (hval : -2147483648 ≤ Machine.read COL_NUM s.mem (s.currRow + dRow d) (s.currCol + dCol d) ∧
      Machine.read COL_NUM s.mem (s.currRow + dRow d) (s.currCol + dCol d) < 2147483647) :
    ∃ s2, Machine.makeNewPath COL_NUM rnd s paths = Except.ok s2 ∧
      s2.currRow = s.currRow + 2 * dRow d ∧ s2.currCol = s.currCol + 2 * dCol d ∧
      Machine.read COL_NUM s2.mem (s.currRow + dRow d) (s.currCol + dCol d) =
        Machine.read COL_NUM s.mem (s.currRow + dRow d) (s.currCol + dCol d) + 1 ∧
      (∀ r c, 0 ≤ r → r < ROW_NUM → 0 ≤ c → c < COL_NUM →
        ¬ (r = s.currRow + dRow d ∧ c = s.currCol + dCol d) →
        Machine.read COL_NUM s2.mem r c = Machine.read COL_NUM s.mem r c) ∧
      (∀ a, a ≠ Machine.address COL_NUM (s.currRow + dRow d) (s.currCol + dCol d) →
        s2.mem a = s.mem a) ∧
      s2.draws = s.draws + 1 ∧ s2.errs = s.errs := by
  have hmem : d ∈ paths := by
    obtain ⟨h, hget⟩ := List.getElem?_eq_some.1 hsel
    rw [← hget]
    exact List.getElem_mem h
  have hd : IsDir d := by
    have := hdir d hmem
    unfold IsDir
    omega
  have hmk := Machine.makeNewPath_in_grid ROW_NUM COL_NUM rnd s paths d hdim hd hsel hin
  refine ⟨_, hmk, rfl, rfl, ?_, ?_, ?_, rfl, rfl⟩
  · show Machine.incr COL_NUM s.mem (s.currRow + dRow d) (s.currCol + dCol d)
      (Machine.address COL_NUM (s.currRow + dRow d) (s.currCol + dCol d)) = _
    unfold Machine.incr
    rw [if_pos rfl]
    exact wrapInt32_of_range (by unfold Machine.read at hval; omega)
      (by unfold Machine.read at hval; omega)
  · intro r c _ _ hc1 hc2 hrc
    show Machine.incr COL_NUM s.mem (s.currRow + dRow d) (s.currCol + dCol d)
      (Machine.address COL_NUM r c) = _
    unfold Machine.incr
    rw [if_neg]
    · rfl
    · intro e
      exact hrc (Machine.address_inj ⟨hc1, hc2⟩ ⟨hin.2.2.1, hin.2.2.2⟩ e)
  · intro a ha
    show Machine.incr COL_NUM s.mem (s.currRow + dRow d) (s.currCol + dCol d) a = _
    unfold Machine.incr
    rw [if_neg ha]

/-- The hypotheses of the amended C16 hold on the all-zero block of 17 rows and 25
columns for the list north, south at position `(5, 7)` with the draw 3: the index is
1, the direction south, the slot `m[6][7]` becomes 1 and the position `(7, 7)`. -/
theorem C16_witness :
    ([1, 3] : List Int)[(fun _ => 3 : Nat → Nat) 0 % ([1, 3] : List Int).length]? = some 3 ∧
    ∃ s2, Machine.makeNewPath 25 (fun _ => 3)
        { mem := zeroMemory, currCol := 7, currRow := 5, draws := 0, errs := 0 } [1, 3] =
          Except.ok s2 ∧
      s2.currRow = 5 + 2 * dRow 3 ∧ s2.currCol = 7 + 2 * dCol 3 ∧
      Machine.read 25 s2.mem (5 + dRow 3) (7 + dCol 3) =
        Machine.read 25 zeroMemory (5 + dRow 3) (7 + dCol 3) + 1 ∧
      (∀ r c, 0 ≤ r → r < 17 → 0 ≤ c → c < 25 →
        ¬ (r = 5 + dRow 3 ∧ c = 7 + dCol 3) →
        Machine.read 25 s2.mem r c = Machine.read 25 zeroMemory r c) ∧
      (∀ a, a ≠ Machine.address 25 (5 + dRow 3) (7 + dCol 3) → s2.mem a = zeroMemory a) ∧
      s2.draws = 0 + 1 ∧ s2.errs = 0 :=
  ⟨rfl, C16_makeNewPath_effect_in_grid 17 25 (fun _ => 3)
    { mem := zeroMemory, currCol := 7, currRow := 5, draws := 0, errs := 0 } [1, 3] 3
    (by decide) (by decide) rfl (by decide) (by decide)⟩

end MazeGenerator
